import Mathlib

/-
Shallow embedding of the forecasting engine in `backend/main.py`
(repository pratikgade49/forecasting).

Conventions of the embedding:
* Python floats are modelled by exact rationals (`ℚ`).  The source computes
  `rmse = sqrt(mean squared error)`; since the square root is monotone and
  sign-preserving, the model carries the radicand (`mse`, the mean squared
  error) wherever the source carries `rmse`; every comparison on `rmse`
  in the source is a comparison on `mse` in the model, and the source
  literal `999.0` stored into the `rmse` field of a degraded result is kept
  as the literal `999`.
* `round(x, k)` on floats is modelled by exact round-half-even on rationals.
* Dates are proleptic-Gregorian `(year, month, day)` triples; pandas
  `to_period('W-MON')` buckets (weeks that END on a Monday) are computed
  through the ordinal-day number, with ordinal 1 = 0001-01-01 (a Monday),
  exactly as in Python's `date.toordinal`.
* Exceptions are modelled by `Except String`; a raised exception is an
  `Except.error` carrying the message.
* Calls into external ML libraries (sklearn / statsmodels fits) are not
  re-implemented; they enter the model as explicit function parameters
  (`impls`, `fallbackFit`, `oracle`) so that the surrounding control flow
  of the repository code is embedded faithfully.  The algorithms that are
  pure arithmetic in the source (`exponential_smoothing_forecast`,
  `calculate_metrics`, `calculate_trend`, the aggregator, the orchestrator
  and the expander loops) are embedded concretely.
-/

namespace Forecasting

/-! ## Dates (proleptic Gregorian, mirroring `datetime` / pandas) -/

/-- A calendar date, `year`-`month`-`day`. -/
structure DateYMD where
  year : ℕ
  month : ℕ
  day : ℕ
deriving DecidableEq, Repr

/-- Gregorian leap-year rule. -/
def isLeap (y : ℕ) : Bool :=
  (y % 4 == 0 && y % 100 != 0) || (y % 400 == 0)

/-- Number of days in a month. -/
def daysInMonth (y m : ℕ) : ℕ :=
  if m = 2 then (if isLeap y then 29 else 28)
  else if m = 4 ∨ m = 6 ∨ m = 9 ∨ m = 11 then 30
  else 31

/-- Days in the months strictly before month `m` of year `y`. -/
def daysBeforeMonth (y m : ℕ) : ℕ :=
  (List.range (m - 1)).foldl (fun acc i => acc + daysInMonth y (i + 1)) 0

/-- Python's `date.toordinal`: day count with 0001-01-01 ↦ 1. -/
def toOrdinal (d : DateYMD) : ℕ :=
  365 * (d.year - 1) + (d.year - 1) / 4 - (d.year - 1) / 100 + (d.year - 1) / 400
    + daysBeforeMonth d.year d.month + d.day

/-- Day of week, 0 = Monday … 6 = Sunday (Python's `date.weekday`);
0001-01-01 is a Monday. -/
def weekdayOf (d : DateYMD) : ℕ := (toOrdinal d - 1) % 7

/-- Ordinal of the start (a Tuesday) of the pandas `W-MON` weekly bucket
containing `d`: `W-MON` periods end on a Monday, so they run
Tuesday … Monday.  This is the bucket keying used by
`aggregate_by_period` for `interval == 'week'`. -/
def weekStartWMon (d : DateYMD) : ℕ :=
  let o := toOrdinal d
  o + ((7 - (o - 1) % 7) % 7) - 6

/-- Modelled from the spec: the spec's §4.1 words say the week bucket is the
"week starting Monday"; this is the start ordinal of the Monday-started
week containing `d`, used only to state claim C8 as written. -/
def weekStartMonday (d : DateYMD) : ℕ :=
  toOrdinal d - (toOrdinal d - 1) % 7

/-- Successor date (used to advance by whole days). -/
def nextDay (d : DateYMD) : DateYMD :=
  if d.day < daysInMonth d.year d.month then ⟨d.year, d.month, d.day + 1⟩
  else if d.month < 12 then ⟨d.year, d.month + 1, 1⟩
  else ⟨d.year + 1, 1, 1⟩

/-- Advance a date by `n` days (`timedelta(days=n)`). -/
def addDays (d : DateYMD) : ℕ → DateYMD
  | 0 => d
  | n + 1 => nextDay (addDays d n)

/-- pandas `DateOffset(months=1)`: next month, day clamped to month length. -/
def addOneMonth (d : DateYMD) : DateYMD :=
  if d.month < 12 then ⟨d.year, d.month + 1, min d.day (daysInMonth d.year (d.month + 1))⟩
  else ⟨d.year + 1, 1, min d.day 31⟩

/-- pandas `DateOffset(years=1)`: next year, day clamped (Feb 29 → Feb 28). -/
def addOneYear (d : DateYMD) : DateYMD :=
  ⟨d.year + 1, d.month, min d.day (daysInMonth (d.year + 1) d.month)⟩

/-- strftime `%b` month abbreviation. -/
def monthAbbrev (m : ℕ) : String :=
  match m with
  | 1 => "Jan" | 2 => "Feb" | 3 => "Mar" | 4 => "Apr" | 5 => "May" | 6 => "Jun"
  | 7 => "Jul" | 8 => "Aug" | 9 => "Sep" | 10 => "Oct" | 11 => "Nov" | 12 => "Dec"
  | _ => "XXX"

/-- Zero-padded two-digit day (strftime `%d`). -/
def pad2 (n : ℕ) : String :=
  if n < 10 then "0" ++ toString n else toString n

/-- `ForecastingEngine.format_period`: human-readable period label. -/
def format_period (d : DateYMD) (interval : String) : String :=
  if interval = "week" then
    "Week of " ++ monthAbbrev d.month ++ " " ++ pad2 d.day ++ ", " ++ toString d.year
  else if interval = "month" then monthAbbrev d.month ++ " " ++ toString d.year
  else if interval = "year" then toString d.year
  else monthAbbrev d.month ++ " " ++ toString d.year

/-! ## Data model -/

/-- The slice of `ForecastConfig` the engine consumes.  Python `None` for a
list-valued field is modelled by the empty list (both are falsy in every
guard the source applies to them). -/
structure Config where
  forecastBy : String
  selectedProducts : List String
  selectedCustomers : List String
  selectedLocations : List String
  selectedItems : List String
  algorithm : String
  interval : String
  historicPeriod : ℕ
  forecastPeriod : ℕ
  multiSelect : Bool
deriving DecidableEq, Repr

/-- One row of an aggregated time series (`date`, `quantity`, `period`). -/
structure Row where
  date : DateYMD
  quantity : ℚ
  period : String
deriving DecidableEq, Repr

/-- `DataPoint` pydantic model. -/
structure DataPoint where
  date : DateYMD
  quantity : ℚ
  period : String
deriving DecidableEq, Repr

/-- Fit metrics.  `mse` is the mean squared error; the source stores
`rmse = sqrt(mse)` — monotone in `mse` — so every ordering test the source
performs on `rmse` is performed on `mse` here. -/
structure MetricsQ where
  accuracy : ℚ
  mae : ℚ
  mse : ℚ
deriving DecidableEq, Repr

/-- `AlgorithmResult` pydantic model.  The `rmse` field holds the model's
encoding of the source's rmse (see `MetricsQ`); the degraded-result literal
`999.0` is kept as `999`. -/
structure AlgorithmResult where
  algorithm : String
  accuracy : ℚ
  mae : ℚ
  rmse : ℚ
  historicData : List DataPoint
  forecastData : List DataPoint
  trend : String
deriving DecidableEq, Repr

/-! ## Metrics & trend evaluator -/

/-- Arithmetic mean of a list of rationals (`np.mean`); `0` on `[]`
(the claims only use it on non-empty lists). -/
def qMean (l : List ℚ) : ℚ := l.sum / l.length

/-- Round-half-even of a rational to an integer (Python `round`). -/
def roundHalfEven (q : ℚ) : ℤ :=
  let f := ⌊q⌋
  let frac := q - f
  if frac < 1/2 then f
  else if frac > 1/2 then f + 1
  else if f % 2 = 0 then f else f + 1

/-- Python `round(q, k)` modelled exactly on rationals. -/
def roundTo (k : ℕ) (q : ℚ) : ℚ :=
  (roundHalfEven (q * (10 ^ k : ℕ))) / ((10 ^ k : ℕ) : ℚ)

/-- `ForecastingEngine.calculate_metrics`.  `actual` and `predicted` are
consumed pointwise (numpy broadcasting demands equal length).
`accuracy = min(max(0, 100 - mape), 99.9)` with
`mape = mean(|a - p| / (a if a != 0 else 1)) * 100`;
`mae = mean |a - p|`; the source's `rmse` is `sqrt` of the `mse` below. -/
def calculate_metrics (actual predicted : List ℚ) : MetricsQ :=
  let diffs := List.zipWith (fun a p => |a - p|) actual predicted
  let mae := qMean diffs
  let mse := qMean (List.zipWith (fun a p => (a - p) ^ 2) actual predicted)
  let mape := qMean (List.zipWith (fun a p => |a - p| / (if a ≠ 0 then a else 1)) actual predicted) * 100
  let accuracy := max 0 (100 - mape)
  { accuracy := min accuracy (99.9 : ℚ), mae := mae, mse := mse }

/-- Ordinary-least-squares slope of `y` against indices `0, 1, …`
(`scipy.stats.linregress`). -/
def olsSlope (y : List ℚ) : ℚ :=
  let n : ℚ := y.length
  let xs : List ℚ := (List.range y.length).map (fun i => (i : ℚ))
  let xbar := qMean xs
  let ybar := qMean y
  let sxy := (List.zipWith (fun x v => (x - xbar) * (v - ybar)) xs y).sum
  let sxx := (xs.map (fun x => (x - xbar) ^ 2)).sum
  if n < 2 ∨ sxx = 0 then 0 else sxy / sxx

/-- `ForecastingEngine.calculate_trend`: slope against ±2 % of the mean. -/
def calculate_trend (y : List ℚ) : String :=
  if y.length < 2 then "stable"
  else
    let slope := olsSlope y
    let threshold := qMean y * (2 / 100)
    if slope > threshold then "increasing"
    else if slope < -threshold then "decreasing"
    else "stable"

/-! ## Period aggregator -/

/-- A bucket key produced by `dt.to_period(...)` in `aggregate_by_period`:
`week` carries the start ordinal of the `W-MON` bucket, `month` and `year`
carry the calendar period. -/
inductive PeriodKey where
  | week (startOrd : ℕ)
  | month (y m : ℕ)
  | year (y : ℕ)
deriving DecidableEq, Repr

/-- The bucket of a date for the chosen interval; an unrecognised interval
falls back to monthly, as the source's trailing `else` does. -/
def periodKey (interval : String) (d : DateYMD) : PeriodKey :=
  if interval = "week" then .week (weekStartWMon d)
  else if interval = "month" then .month d.year d.month
  else if interval = "year" then .year d.year
  else .month d.year d.month

/-- Modelled from the spec: the bucket of a date when weeks are read as the
spec's §4.1 words say ("week starting Monday").  Used only to state claim
C8 as written; months and years agree with `periodKey`. -/
def specPeriodKey (interval : String) (d : DateYMD) : PeriodKey :=
  if interval = "week" then .week (weekStartMonday d)
  else if interval = "month" then .month d.year d.month
  else if interval = "year" then .year d.year
  else .month d.year d.month

/-- A raw transactional record. -/
structure RawRecord where
  product : String
  customer : String
  location : String
  date : DateYMD
  quantity : ℚ
deriving DecidableEq, Repr

/-- The value a record carries for a named dimension column. -/
def dimValue (r : RawRecord) (dim : String) : String :=
  if dim = "product" then r.product
  else if dim = "customer" then r.customer
  else if dim = "location" then r.location
  else ""

/-- Grouping dimensions chosen by `aggregate_by_period` (source lines
264-281): in multi-select mode the selected dimensions, kept only when two
or more are selected; in simple mode with more than one selected item the
`forecastBy` dimension; otherwise none. -/
def groupDims (cfg : Config) : List String :=
  if cfg.multiSelect then
    let dims :=
      (if cfg.selectedProducts ≠ [] then ["product"] else []) ++
      (if cfg.selectedCustomers ≠ [] then ["customer"] else []) ++
      (if cfg.selectedLocations ≠ [] then ["location"] else [])
    if 2 ≤ dims.length then dims else []
  else if 1 < cfg.selectedItems.length then [cfg.forecastBy]
  else []

/-- Add a quantity to the entry of a key in an association list, appending
a new entry when the key is absent (the order differs from pandas' sorted
group keys, which no claim depends on; the per-key sums agree). -/
def addToGroup {κ : Type} [DecidableEq κ] : List (κ × ℚ) → κ → ℚ → List (κ × ℚ)
  | [], k, q => [(k, q)]
  | (k', q') :: rest, k, q =>
    if k = k' then (k', q' + q) :: rest else (k', q') :: addToGroup rest k q

/-- `groupby(keys)['quantity'].sum()`: fold the records into per-key sums. -/
def groupSum {ρ κ : Type} [DecidableEq κ] (keyfn : ρ → κ) (qty : ρ → ℚ)
    (rs : List ρ) : List (κ × ℚ) :=
  rs.foldl (fun acc r => addToGroup acc (keyfn r) (qty r)) []

/-- Key of a record in `aggregate_by_period`: its values on the grouping
dimensions plus its period bucket. -/
def aggKey (cfg : Config) (interval : String) (r : RawRecord) :
    List String × PeriodKey :=
  ((groupDims cfg).map (dimValue r), periodKey interval r.date)

/-- `ForecastingEngine.aggregate_by_period`, reduced to the per-group
quantity sums (the emitted `date` column is the bucket start and the
`period` column is `format_period` of it — both are functions of the key
and carry no further information). -/
def aggregate_by_period (records : List RawRecord) (interval : String)
    (cfg : Config) : List ((List String × PeriodKey) × ℚ) :=
  groupSum (aggKey cfg interval) (·.quantity) records

/-- Modelled from the spec: `aggregate_by_period` as claim C8 reads it,
with "week starting Monday" buckets. -/
def aggregate_by_period_spec (records : List RawRecord) (interval : String)
    (cfg : Config) : List ((List String × PeriodKey) × ℚ) :=
  groupSum (fun r => ((groupDims cfg).map (dimValue r), specPeriodKey interval r.date))
    (·.quantity) records

/-! ## Algorithm library (the concretely embedded members) -/

/-- pandas `Series.rolling(window=w, min_periods=1).mean()`:
entry `i` is the mean of the last `min(w, i+1)` values up to index `i`. -/
def rollingMean (y : List ℚ) (w : ℕ) : List ℚ :=
  (List.range y.length).map (fun i =>
    let lo := i + 1 - w
    let win := (y.drop lo).take (i + 1 - lo)
    win.sum / win.length)

/-- One iteration of `exponential_smoothing_forecast`'s alpha loop.  The
body never reads `alpha`: it recomputes the same rolling mean (window
`min(3, n)`, `min_periods=1`), the same constant-level forecast and the
same in-sample metrics, and replaces the running best only on a strictly
smaller rmse.  `none` stands for the source's `(None, None)` state and for
the library exception raised on an empty series. -/
def esfStep (y : List ℚ) (periods : ℕ) (best : Option (List ℚ × MetricsQ))
    (_alpha : ℚ) : Option (List ℚ × MetricsQ) :=
  let w := min 3 y.length
  match (rollingMean y w).getLast? with
  | none => none
  | some lastSmoothed =>
    let forecast := List.replicate periods lastSmoothed
    let metrics := calculate_metrics (y.drop (w - 1)) ((rollingMean y w).drop (w - 1))
    match best with
    | none => some (forecast, metrics)
    | some b => if metrics.mse < b.2.mse then some (forecast, metrics) else some b

/-- `ForecastingEngine.exponential_smoothing_forecast`: fold the alpha loop
over the hyperparameter list (default `[0.1, 0.3, 0.5]`). -/
def exponential_smoothing_forecast (y : List ℚ) (periods : ℕ)
    (alphas : List ℚ) : Option (List ℚ × MetricsQ) :=
  alphas.foldl (esfStep y periods) none

/-- The in-sample fallback smoother of `run_algorithm` (alpha = 0.3),
used for training-set metrics when the series is too short to split. -/
def sesSmooth03 : List ℚ → List ℚ
  | [] => []
  | v :: vs =>
    (vs.foldl (fun acc x => (3/10 * x + 7/10 * acc.head!) :: acc) [v]).reverse

/-- One candidate configuration of the `ses_forecast` grid search. -/
structure SesConfig where
  seasonalPeriods : Option ℕ
  trendOpt : Option String
  seasonalOpt : Option String
deriving DecidableEq, Repr

/-- The grid `ses_forecast` sweeps: seasonal periods × trend × seasonal. -/
def sesGrid : List SesConfig :=
  ([none, some 4, some 6, some 12]).flatMap (fun sp =>
    ([none, some "add", some "mul"]).flatMap (fun tr =>
      ([none, some "add", some "mul"]).map (fun se =>
        ⟨sp, tr, se⟩)))

/-- Outcome of one statsmodels `ExponentialSmoothing(...).fit`: the
information criterion, the forecast for a horizon, and the fitted values.
The fit itself is external library code and enters as an oracle. -/
structure SesFit where
  aic : ℚ
  forecastAt : ℕ → List ℚ
  fitted : List ℚ

/-- Grid selection inside `ses_forecast`: keep the fit with strictly
smallest aic (first wins ties), skipping configurations whose fit raises. -/
def sesBestFit (oracle : SesConfig → Option SesFit) : Option SesFit :=
  sesGrid.foldl
    (fun best c =>
      match oracle c with
      | none => best
      | some fit =>
        match best with
        | none => some fit
        | some b => if fit.aic < b.aic then some fit else some b)
    none

/-- `ForecastingEngine.ses_forecast`.  When no grid configuration fits, the
source's "fallback to previous method" line calls `ses_forecast` itself
with unchanged arguments; the recursion is modelled with explicit `fuel`
standing for Python's recursion limit, exhaustion of which is the
`RecursionError` the interpreter raises. -/
def ses_forecast (oracle : SesConfig → Option SesFit) (y : List ℚ)
    (periods : ℕ) : ℕ → Except String (List ℚ × MetricsQ)
  | 0 => .error "RecursionError: maximum recursion depth exceeded"
  | fuel + 1 =>
    if y.length < 2 then
      .ok (List.replicate periods (y.headD 0), ⟨50, 0, 0⟩)
    else
      match sesBestFit oracle with
      | some fit =>
        .ok ((fit.forecastAt periods).map (fun q => max q 0),
             calculate_metrics y fit.fitted)
      | none => ses_forecast oracle y periods fuel

/-! ## Per-algorithm orchestrator (`run_algorithm`) -/

/-- `ForecastingEngine.ALGORITHMS`: catalog id ↦ display name. -/
def ALGORITHMS : List (String × String) :=
  [("linear_regression", "Linear Regression"),
   ("polynomial_regression", "Polynomial Regression"),
   ("exponential_smoothing", "Exponential Smoothing"),
   ("holt_winters", "Holt-Winters"),
   ("arima", "ARIMA (Simple)"),
   ("random_forest", "Random Forest"),
   ("seasonal_decomposition", "Seasonal Decomposition"),
   ("moving_average", "Moving Average"),
   ("sarima", "SARIMA (Seasonal ARIMA)"),
   ("prophet_like", "Prophet-like Forecasting"),
   ("lstm_like", "Simple LSTM-like"),
   ("xgboost", "XGBoost Regression"),
   ("svr", "Support Vector Regression"),
   ("knn", "K-Nearest Neighbors"),
   ("gaussian_process", "Gaussian Process"),
   ("neural_network", "Neural Network (MLP)"),
   ("theta_method", "Theta Method"),
   ("croston", "Croston's Method"),
   ("ses", "Simple Exponential Smoothing"),
   ("damped_trend", "Damped Trend Method"),
   ("naive_seasonal", "Naive Seasonal"),
   ("drift_method", "Drift Method"),
   ("best_fit", "Best Fit (Auto-Select)")]

/-- The ids dispatched by `run_algorithm`'s `if/elif` chain — every catalog
id except `best_fit`, in chain order.  These are also the ids a best-fit
sweep iterates. -/
def sweepAlgorithms : List String :=
  (ALGORITHMS.map Prod.fst).filter (· ≠ "best_fit")

/-- One forecasting algorithm as `run_algorithm` consumes it:
series rows and a horizon to a forecast vector and fit metrics, or a
raised exception. -/
abbrev AlgoFn : Type := List Row → ℕ → Except String (List ℚ × MetricsQ)

/-- A logged call to `ModelPersistenceManager.save_model`. -/
structure SaveCall where
  algorithm : String
deriving DecidableEq, Repr

/-- `generate_forecast_dates`: advance the interval unit from the last
observed date, `periods` times. -/
def generate_forecast_dates (lastDate : DateYMD) (periods : ℕ)
    (interval : String) : List DateYMD :=
  (List.range periods).foldl
    (fun acc _ =>
      let cur := acc.2
      let nxt :=
        if interval = "week" then addDays cur 7
        else if interval = "month" then addOneMonth cur
        else if interval = "year" then addOneYear cur
        else addOneMonth cur
      (acc.1 ++ [nxt], nxt))
    ([], lastDate) |>.1

/-- Last `k` elements of a list (`DataFrame.tail(k)`). -/
def tailN {α : Type} (l : List α) (k : ℕ) : List α := l.drop (l.length - k)

/-- The train/test split index `int(n * 0.8)` of `run_algorithm`.  `0.8` is
the double closest to 4/5 from above, and for every series length that
arises the truncated product equals `⌊4n/5⌋`. -/
def splitIdx (n : ℕ) : ℕ := 4 * n / 5

/-- In-sample predictions used for fallback metrics when the series is too
short to split (`run_algorithm` lines 1750-1768): a fresh linear /
polynomial library fit for the two regression ids (entering as the
`fallbackFit` parameter), the alpha-0.3 smoother for the smoothing ids, and
the series itself otherwise. -/
def fallbackPredicted (fallbackFit : String → List ℚ → List ℚ)
    (algorithm : String) (y : List ℚ) : List ℚ :=
  if algorithm = "linear_regression" ∨ algorithm = "polynomial_regression" then
    fallbackFit algorithm y
  else if algorithm = "exponential_smoothing" ∨ algorithm = "ses" then
    sesSmooth03 y
  else y

/-- The training rows of `run_algorithm`'s split: the whole series below
length 6, else the first `int(n * 0.8)` rows. -/
def trainPart (data : List Row) : List Row :=
  if data.length < 6 then data else data.take (splitIdx data.length)

/-- The held-out test rows of `run_algorithm`'s split (`None` below 6). -/
def testPart (data : List Row) : Option (List Row) :=
  if data.length < 6 then none else some (data.drop (splitIdx data.length))

/-- The horizon `run_algorithm` passes to the dispatched algorithm:
`len(test)` when a split was made, else `config.forecastPeriod`. -/
def horizonOf (data : List Row) (cfg : Config) : ℕ :=
  match testPart data with
  | none => cfg.forecastPeriod
  | some t => t.length

/-- `ForecastingEngine.run_algorithm`.  `impls` supplies the 22 dispatched
algorithm functions (those backed by ML libraries stay opaque); the whole
body runs under `try`, the `except` clause rebuilds the degraded result via
`ALGORITHMS[algorithm]` — which itself raises `KeyError` when the id is
unknown.  The returned list logs every `ModelPersistenceManager.save_model`
call made (the source performs it unconditionally on the success path; the
`save_model` parameter is never read). -/
def run_algorithm (impls : String → AlgoFn)
    (fallbackFit : String → List ℚ → List ℚ) (algorithm : String)
    (data : List Row) (cfg : Config) (saveModel : Bool) :
    Except String AlgorithmResult × List SaveCall :=
  let _ := saveModel
  let train := trainPart data
  let testRows := testPart data
  let horizon := horizonOf data cfg
  let dispatched : Except String (List ℚ × MetricsQ) :=
    if (ALGORITHMS.map Prod.fst).contains algorithm ∧ algorithm ≠ "best_fit" then
      impls algorithm train horizon
    else .error ("Unknown algorithm: " ++ algorithm)
  match dispatched with
  | .ok (forecast, _fitMetrics) =>
    let metrics : MetricsQ :=
      match testRows with
      | some t =>
        calculate_metrics (t.map (·.quantity)) (forecast.take t.length)
      | none =>
        let y := train.map (·.quantity)
        calculate_metrics y (fallbackPredicted fallbackFit algorithm y)
    let lastDate := ((data.getLast?).map (·.date)).getD ⟨1, 1, 1⟩
    let forecastDates := generate_forecast_dates lastDate cfg.forecastPeriod cfg.interval
    let historicData := (tailN data cfg.historicPeriod).map
      (fun r => DataPoint.mk r.date r.quantity r.period)
    let forecastData := (forecastDates.zip forecast).map
      (fun p => DataPoint.mk p.1 p.2 (format_period p.1 cfg.interval))
    let trend := calculate_trend (data.map (·.quantity))
    (.ok { algorithm := ((ALGORITHMS.lookup algorithm).getD ""),
           accuracy := roundTo 1 metrics.accuracy,
           mae := roundTo 2 metrics.mae,
           rmse := metrics.mse,
           historicData := historicData,
           forecastData := forecastData,
           trend := trend },
     [⟨algorithm⟩])
  | .error _ =>
    match ALGORITHMS.lookup algorithm with
    | some displayName =>
      (.ok { algorithm := displayName, accuracy := 0, mae := 999, rmse := 999,
             historicData := [], forecastData := [], trend := "stable" }, [])
    | none => (.error ("KeyError: " ++ algorithm), [])

/-- `exponential_smoothing_forecast` wrapped to the orchestrator's calling
convention, with the source's default `alphas = [0.1, 0.3, 0.5]`. -/
def expSmoothingAlgo : AlgoFn := fun rows periods =>
  match exponential_smoothing_forecast (rows.map (·.quantity)) periods
      [1/10, 3/10, 5/10] with
  | some r => .ok r
  | none => .error "TypeError"

/-! ## Best-fit selection and ensemble (`generate_forecast`) -/

/-- The best-fit loop of `generate_forecast` (lines 1833-1843): scan the
sweep results in catalog order, keeping the first result and replacing it
only on a strictly greater accuracy. -/
def bestFitSelect (results : List AlgorithmResult) : Option AlgorithmResult :=
  results.foldl
    (fun best r =>
      match best with
      | none => some r
      | some b => if r.accuracy > b.accuracy then some r else some b)
    none

/-- Descending-accuracy order used by the ensemble's
`sorted(results, key=lambda x: -x.accuracy)`. -/
def accGE (a b : AlgorithmResult) : Prop := b.accuracy ≤ a.accuracy

instance : DecidableRel accGE := fun a b => inferInstanceAs (Decidable (b.accuracy ≤ a.accuracy))

instance : IsTotal AlgorithmResult accGE := ⟨fun a b => le_total b.accuracy a.accuracy⟩

instance : IsTrans AlgorithmResult accGE := ⟨fun _ _ _ h h2 => le_trans h2 h⟩

/-- `sorted(results, key=lambda x: -x.accuracy)[:3]`: Python's `sorted` is
stable, modelled by the (stable) insertion sort. -/
def topAlgorithms (results : List AlgorithmResult) : List AlgorithmResult :=
  (List.insertionSort accGE results).take 3

/-- The per-point quantities averaged by the ensemble: algorithms of the
top-3 list with an empty forecast are filtered out, the rest are indexed at
`i` — an out-of-range index is the source's uncaught `IndexError`. -/
def ensembleQuantities (top3 : List AlgorithmResult) (i : ℕ) :
    Except String (List ℚ) :=
  (top3.filter (fun a => a.forecastData ≠ [])).mapM
    (fun a => match a.forecastData[i]? with
      | some p => .ok p.quantity
      | none => .error "IndexError")

/-- One output point of the ensemble average: the mean of the top-3
quantities at index `i` (algorithms with empty forecasts filtered out,
`0` when none remain), dated and labelled from `first`'s point `i`. -/
def ensemblePoint (top3 : List AlgorithmResult) (first : AlgorithmResult)
    (i : ℕ) : Except String DataPoint := do
  let quantities ← ensembleQuantities top3 i
  let avgQty := if quantities = [] then 0 else qMean quantities
  match first.forecastData[i]? with
  | some p => pure (DataPoint.mk p.date avgQty p.period)
  | none => Except.error "IndexError"

/-- The ensemble block of `generate_forecast` (lines 1848-1874): when the
top-3 list has at least two members, append the point-wise average of their
forecasts (template dates/periods and historic data from its first member,
metrics the mean over the list) to the sweep results. -/
def ensembleStep (results : List AlgorithmResult) :
    Except String (List AlgorithmResult) := do
  let top3 := topAlgorithms results
  if 2 ≤ top3.length then
    let first := top3.headD ⟨"", 0, 0, 0, [], [], ""⟩
    let nForecast := first.forecastData.length
    let avgForecast ← (List.range nForecast).mapM (ensemblePoint top3 first)
    let ensemble : AlgorithmResult :=
      { algorithm := "Ensemble (Top 3 Avg)",
        accuracy := qMean (top3.map (·.accuracy)),
        mae := qMean (top3.map (·.mae)),
        rmse := qMean (top3.map (·.rmse)),
        historicData := first.historicData,
        forecastData := avgForecast,
        trend := first.trend }
    pure (results ++ [ensemble])
  else pure results

/-! ## Multi-combination expander -/

/-- Outcome of one combination's pipeline (data load + aggregation +
algorithm run, lines 1929-1981 / 2126-2209).  The pipeline body calls into
the database and the ML libraries, so it enters the model as a parameter;
`failure` covers both the explicit `Insufficient data` /
`No algorithms produced valid results` appends and a caught exception,
whose recorded reason is `str(e)`. -/
inductive StepResult where
  | success (accuracy : ℚ)
  | failure (reason : String)
deriving DecidableEq, Repr

/-- A successful combination's entry in `results` — the fields the summary
reads (`combination` is the tagging key, `accuracy` the metric). -/
structure ComboResult where
  combination : String
  accuracy : ℚ
deriving DecidableEq, Repr

/-- `summary` dictionary of a `MultiForecastResult`. -/
structure MSummary where
  averageAccuracy : ℚ
  bestCombination : String × ℚ
  worstCombination : String × ℚ
  successfulCombinations : ℕ
  failedCombinations : ℕ
  failedDetails : List (String × String)
deriving DecidableEq, Repr

/-- `MultiForecastResult`. -/
structure MultiResult where
  results : List ComboResult
  totalCombinations : ℕ
  summary : MSummary
deriving DecidableEq, Repr

/-- Python `max(results, key=lambda x: x.accuracy)`: first maximum. -/
def pyMaxByAccuracy (results : List ComboResult) : Option ComboResult :=
  results.foldl
    (fun best r =>
      match best with
      | none => some r
      | some b => if r.accuracy > b.accuracy then some r else some b)
    none

/-- Python `min(results, key=lambda x: x.accuracy)`: first minimum. -/
def pyMinByAccuracy (results : List ComboResult) : Option ComboResult :=
  results.foldl
    (fun best r =>
      match best with
      | none => some r
      | some b => if r.accuracy < b.accuracy then some r else some b)
    none

/-- The loop and summary shared verbatim by
`generate_forecast_three_dimensions` and
`generate_forecast_two_dimensions`: run every combination, accumulate
successes into `results` and failures into `failed_combinations`, raise
when nothing succeeded, else build the summary over the successes. -/
def runCombinations {α : Type} (step : α → StepResult) (key : α → String)
    (combos : List α) : Except String MultiResult :=
  let state := combos.foldl
    (fun (acc : List ComboResult × ℕ × List (String × String)) combo =>
      match step combo with
      | .success a => (acc.1 ++ [⟨key combo, a⟩], acc.2.1 + 1, acc.2.2)
      | .failure reason => (acc.1, acc.2.1, acc.2.2 ++ [(key combo, reason)]))
    ([], 0, [])
  let results := state.1
  let successCount := state.2.1
  let failures := state.2.2
  if results = [] then
    .error "No valid forecasts could be generated for any combination"
  else
    let avgAccuracy := roundTo 2 (qMean (results.map (·.accuracy)))
    let best := (pyMaxByAccuracy results).getD ⟨"", 0⟩
    let worst := (pyMinByAccuracy results).getD ⟨"", 0⟩
    .ok { results := results,
          totalCombinations := combos.length,
          summary :=
            { averageAccuracy := avgAccuracy,
              bestCombination := (best.combination, best.accuracy),
              worstCombination := (worst.combination, worst.accuracy),
              successfulCombinations := successCount,
              failedCombinations := failures.length,
              failedDetails := failures } }

/-- The Cartesian triple expansion of
`generate_forecast_three_dimensions` (`itertools.product` order). -/
def tripleCombos (products customers locations : List String) :
    List (String × String × String) :=
  products.flatMap (fun p =>
    customers.flatMap (fun c =>
      locations.map (fun l => (p, c, l))))

/-- The failed-combination key `f"{product} + {customer} + {location}"`. -/
def tripleKey (t : String × String × String) : String :=
  t.1 ++ " + " ++ t.2.1 ++ " + " ++ t.2.2

/-- `ForecastingEngine.generate_forecast_three_dimensions`, with the
per-combination pipeline abstracted as `step`. -/
def generate_forecast_three_dimensions
    (step : String × String × String → StepResult)
    (products customers locations : List String) : Except String MultiResult :=
  runCombinations step tripleKey (tripleCombos products customers locations)

/-- The pair expansion of `generate_forecast_two_dimensions`: the first
matching pair of active dimensions, tagged with its combination type. -/
def pairCombos (products customers locations : List String) :
    List (String × String × String) :=
  if products ≠ [] ∧ customers ≠ [] then
    products.flatMap (fun p => customers.map (fun c => ("product_customer", p, c)))
  else if products ≠ [] ∧ locations ≠ [] then
    products.flatMap (fun p => locations.map (fun l => ("product_location", p, l)))
  else if customers ≠ [] ∧ locations ≠ [] then
    customers.flatMap (fun c => locations.map (fun l => ("customer_location", c, l)))
  else []

/-- The failed-combination key
`f"{combination_type}: {dim1_value} + {dim2_value}"`. -/
def pairKey (t : String × String × String) : String :=
  t.1 ++ ": " ++ t.2.1 ++ " + " ++ t.2.2

/-- `ForecastingEngine.generate_forecast_two_dimensions`, with the
per-combination pipeline abstracted as `step`. -/
def generate_forecast_two_dimensions
    (step : String × String × String → StepResult)
    (products customers locations : List String) : Except String MultiResult :=
  runCombinations step pairKey (pairCombos products customers locations)

/-! ## Helper lemmas -/

/-- The mean of a list of non-negative rationals is non-negative. -/
theorem qMean_nonneg {l : List ℚ} (h : ∀ x ∈ l, 0 ≤ x) : 0 ≤ qMean l := by
  unfold qMean
  exact div_nonneg (List.sum_nonneg h) (by positivity)

/-- Members of a `zipWith` image of a pointwise non-negative function are
non-negative. -/
theorem zipWith_nonneg {f : ℚ → ℚ → ℚ} (hf : ∀ a b, 0 ≤ f a b) :
    ∀ (l1 l2 : List ℚ), ∀ x ∈ List.zipWith f l1 l2, 0 ≤ x := by
  intro l1
  induction l1 with
  | nil => intro l2 x hx; simp at hx
  | cons a l ih =>
    intro l2 x hx
    cases l2 with
    | nil => simp at hx
    | cons b l2t =>
      simp only [List.zipWith_cons_cons, List.mem_cons] at hx
      rcases hx with h | h
      · exact h ▸ hf a b
      · exact ih l2t x h

/-- C6: for every pair of equal-length non-empty actual/predicted vectors,
`calculate_metrics` returns accuracy in `[0, 99.9]` equal to
`clamp(100 − mean(|a − p| / (a if a ≠ 0 else 1)) · 100, 0, 99.9)`,
a non-negative mae, and a non-negative mean squared error (the source's
rmse is its square root, hence also non-negative). -/
theorem C6_calculate_metrics_bounds (actual predicted : List ℚ)
    (hlen : actual.length = predicted.length) (hne : actual ≠ []) :
    0 ≤ (calculate_metrics actual predicted).accuracy ∧
    (calculate_metrics actual predicted).accuracy ≤ 99.9 ∧
    (calculate_metrics actual predicted).accuracy =
      min (max 0 (100 - qMean (List.zipWith
        (fun a p => |a - p| / (if a ≠ 0 then a else 1)) actual predicted) * 100)) 99.9 ∧
    0 ≤ (calculate_metrics actual predicted).mae ∧
    0 ≤ (calculate_metrics actual predicted).mse := by
  refine ⟨?_, ?_, rfl, ?_, ?_⟩
  · exact le_min (le_max_left 0 _) (by norm_num)
  · exact min_le_right _ _
  · exact qMean_nonneg (zipWith_nonneg (fun a b => abs_nonneg (a - b)) actual predicted)
  · exact qMean_nonneg (zipWith_nonneg (fun a b => sq_nonneg (a - b)) actual predicted)

/-- Witness for C6 at a concrete pair of vectors. -/
theorem C6_calculate_metrics_bounds_witness :
    0 ≤ (calculate_metrics [1, 2] [3, 4]).accuracy ∧
    (calculate_metrics [1, 2] [3, 4]).accuracy ≤ 99.9 ∧
    (calculate_metrics [1, 2] [3, 4]).accuracy =
      min (max 0 (100 - qMean (List.zipWith
        (fun a p => |a - p| / (if a ≠ 0 then a else 1)) [1, 2] [3, 4]) * 100)) 99.9 ∧
    0 ≤ (calculate_metrics [1, 2] [3, 4]).mae ∧
    0 ≤ (calculate_metrics [1, 2] [3, 4]).mse :=
  C6_calculate_metrics_bounds [1, 2] [3, 4] (by decide) (by decide)

/-- The strict-improvement scan of `generate_forecast`'s best-fit loop,
seeded with a first candidate. -/
def bestAux (b : AlgorithmResult) (l : List AlgorithmResult) : AlgorithmResult :=
  l.foldl (fun best r => if r.accuracy > best.accuracy then r else best) b

/-- `bestFitSelect` on a non-empty list is `bestAux` seeded with the head. -/
theorem bestFitSelect_cons (r0 : AlgorithmResult) (rs : List AlgorithmResult) :
    bestFitSelect (r0 :: rs) = some (bestAux r0 rs) := by
  suffices h : ∀ (l : List AlgorithmResult) (b : AlgorithmResult),
      l.foldl (fun best r =>
        match best with
        | none => some r
        | some bb => if r.accuracy > bb.accuracy then some r else some bb)
        (some b) = some (bestAux b l) by
    simpa [bestFitSelect] using h rs r0
  intro l
  induction l with
  | nil => intro b; rfl
  | cons y ys ih =>
    intro b
    simp only [List.foldl_cons, bestAux]
    by_cases hyb : y.accuracy > b.accuracy
    · simp only [if_pos hyb]
      exact ih y
    · simp only [if_neg hyb]
      exact ih b

/-- Selection of the first element attaining the maximum accuracy,
relative to the seeded scan. -/
def FirstMaxAt (l : List AlgorithmResult) (b : AlgorithmResult) (i : ℕ) : Prop :=
  l[i]? = some b ∧ (∀ x ∈ l, x.accuracy ≤ b.accuracy) ∧
    ∀ j : ℕ, j < i → ∀ x : AlgorithmResult, l[j]? = some x →
      x.accuracy < b.accuracy

/-- The seeded scan returns the seed when nothing beats it, else the first
list element that attains the running maximum. -/
theorem bestAux_spec : ∀ (l : List AlgorithmResult) (b : AlgorithmResult),
    (bestAux b l = b ∧ ∀ x ∈ l, x.accuracy ≤ b.accuracy) ∨
    (∃ i : ℕ, l[i]? = some (bestAux b l) ∧ b.accuracy < (bestAux b l).accuracy ∧
      (∀ x ∈ l, x.accuracy ≤ (bestAux b l).accuracy) ∧
      ∀ j : ℕ, j < i → ∀ x : AlgorithmResult, l[j]? = some x →
        x.accuracy < (bestAux b l).accuracy) := by
  intro l
  induction l with
  | nil => intro b; exact Or.inl ⟨rfl, by simp⟩
  | cons y ys ih =>
    intro b
    by_cases hyb : y.accuracy > b.accuracy
    · have hrw : bestAux b (y :: ys) = bestAux y ys := by
        simp [bestAux, List.foldl_cons, if_pos hyb]
      rw [hrw]
      rcases ih y with ⟨heq, hall⟩ | ⟨i, hget, hlt, hall, hfirst⟩
      · refine Or.inr ⟨0, ?_, ?_, ?_, ?_⟩
        · simp [heq]
        · rw [heq]; exact hyb
        · intro x hx
          rcases List.mem_cons.mp hx with h | h
          · rw [heq, h]
          · rw [heq]; exact hall x h
        · intro j hj; omega
      · refine Or.inr ⟨i + 1, ?_, ?_, ?_, ?_⟩
        · simpa using hget
        · exact lt_trans hyb hlt
        · intro x hx
          rcases List.mem_cons.mp hx with h | h
          · rw [h]; exact le_of_lt hlt
          · exact hall x h
        · intro j hj x hx
          cases j with
          | zero =>
            simp only [List.getElem?_cons_zero, Option.some_inj] at hx
            rw [← hx]; exact hlt
          | succ j2 =>
            simp only [List.getElem?_cons_succ] at hx
            exact hfirst j2 (by omega) x hx
    · have hyb2 : y.accuracy ≤ b.accuracy := not_lt.mp hyb
      have hrw : bestAux b (y :: ys) = bestAux b ys := by
        simp [bestAux, List.foldl_cons, if_neg hyb]
      rw [hrw]
      rcases ih b with ⟨heq, hall⟩ | ⟨i, hget, hlt, hall, hfirst⟩
      · refine Or.inl ⟨heq, ?_⟩
        intro x hx
        rcases List.mem_cons.mp hx with h | h
        · rw [h]; exact hyb2
        · exact hall x h
      · refine Or.inr ⟨i + 1, ?_, ?_, ?_, ?_⟩
        · simpa using hget
        · exact hlt
        · intro x hx
          rcases List.mem_cons.mp hx with h | h
          · rw [h]; exact le_of_lt (lt_of_le_of_lt hyb2 hlt)
          · exact hall x h
        · intro j hj x hx
          cases j with
          | zero =>
            simp only [List.getElem?_cons_zero, Option.some_inj] at hx
            rw [← hx]; exact lt_of_le_of_lt hyb2 hlt
          | succ j2 =>
            simp only [List.getElem?_cons_succ] at hx
            exact hfirst j2 (by omega) x hx

/-- C5: in best-fit mode the selected primary result has accuracy greater
than or equal to every result of the sweep, and on ties the
first-encountered result in catalog order is the one selected (every
earlier result has strictly smaller accuracy). -/
theorem C5_best_fit_selection (r0 : AlgorithmResult) (rs : List AlgorithmResult) :
    ∃ (b : AlgorithmResult) (i : ℕ),
      bestFitSelect (r0 :: rs) = some b ∧ FirstMaxAt (r0 :: rs) b i := by
  rcases bestAux_spec rs r0 with ⟨heq, hall⟩ | ⟨i, hget, hlt, hall, hfirst⟩
  · refine ⟨bestAux r0 rs, 0, bestFitSelect_cons r0 rs, by simp [heq], ?_, ?_⟩
    · intro x hx
      rcases List.mem_cons.mp hx with h | h
      · rw [h, heq]
      · rw [heq]; exact hall x h
    · intro j hj; omega
  · refine ⟨bestAux r0 rs, i + 1, bestFitSelect_cons r0 rs, by simpa using hget, ?_, ?_⟩
    · intro x hx
      rcases List.mem_cons.mp hx with h | h
      · rw [h]; exact le_of_lt hlt
      · exact hall x h
    · intro j hj x hx
      cases j with
      | zero =>
        simp only [List.getElem?_cons_zero, Option.some_inj] at hx
        rw [← hx]; exact hlt
      | succ j2 =>
        simp only [List.getElem?_cons_succ] at hx
        exact hfirst j2 (by omega) x hx

/-- A concrete sweep result used by witnesses. -/
def arLow : AlgorithmResult := ⟨"Linear Regression", 40, 2, 2, [], [], "stable"⟩

/-- A concrete sweep result used by witnesses. -/
def arHigh : AlgorithmResult := ⟨"Drift Method", 90, 1, 1, [], [], "increasing"⟩

/-- Witness for C5 on a concrete two-element sweep. -/
theorem C5_best_fit_selection_witness :
    ∃ (b : AlgorithmResult) (i : ℕ),
      bestFitSelect (arLow :: [arHigh]) = some b ∧
      FirstMaxAt (arLow :: [arHigh]) b i :=
  C5_best_fit_selection arLow [arHigh]

/-! ## Concrete fixtures used by counterexamples and witnesses -/

/-- A dispatch table with the concretely embedded exponential smoothing
algorithm; every other library-backed id raises. -/
def implsExp : String → AlgoFn := fun name =>
  if name = "exponential_smoothing" then expSmoothingAlgo
  else fun _ _ => .error "unmodelled library algorithm"

/-- A trivial stand-in for the library fits of the short-series fallback
metrics (unused on the paths the theorems below evaluate). -/
def fbId : String → List ℚ → List ℚ := fun _ y => y

/-- A monthly series row. -/
def mkRow (y m : ℕ) (q : ℚ) : Row := ⟨⟨y, m, 1⟩, q, monthAbbrev m ++ " " ++ toString y⟩

/-- A ten-point monthly series (Jan–Oct 2023). -/
def data10 : List Row :=
  [mkRow 2023 1 10, mkRow 2023 2 12, mkRow 2023 3 14, mkRow 2023 4 16,
   mkRow 2023 5 18, mkRow 2023 6 20, mkRow 2023 7 22, mkRow 2023 8 24,
   mkRow 2023 9 26, mkRow 2023 10 28]

/-- A config requesting a 6-period monthly forecast. -/
def cfg10 : Config :=
  ⟨"product", [], [], [], [], "exponential_smoothing", "month", 12, 6, false⟩

/-- A four-point constant monthly series (below the split threshold). -/
def dataW : List Row :=
  [mkRow 2023 1 4, mkRow 2023 2 4, mkRow 2023 3 4, mkRow 2023 4 4]

/-- A config requesting a 3-period monthly forecast. -/
def cfgW : Config :=
  ⟨"product", [], [], [], [], "exponential_smoothing", "month", 12, 3, false⟩

/-! ## Orchestrator lemmas -/

/-- A key occurring among an association list's keys has a `lookup` hit. -/
theorem lookup_isSome_of_mem_keys (l : List (String × String)) (k : String)
    (h : k ∈ l.map Prod.fst) : (l.lookup k).isSome := by
  induction l with
  | nil => simp at h
  | cons p t ih =>
    simp only [List.map_cons, List.mem_cons] at h
    by_cases hk : k = p.1
    · simp [List.lookup, hk]
    · have h2 : k ∈ t.map Prod.fst := by
        rcases h with h | h
        · exact absurd h hk
        · exact h
      have hbeq : (k == p.1) = false := beq_false_of_ne hk
      simp only [List.lookup, hbeq]
      exact ih h2

/-- A key with no `lookup` hit does not occur among the keys. -/
theorem not_mem_keys_of_lookup_none (l : List (String × String)) (k : String)
    (h : l.lookup k = none) : k ∉ l.map Prod.fst := by
  intro hm
  have := lookup_isSome_of_mem_keys l k hm
  rw [h] at this
  simp at this

/-- Membership in the sweep list gives the dispatch guard of
`run_algorithm`. -/
theorem sweep_mem_spec {algorithm : String} (h : algorithm ∈ sweepAlgorithms) :
    algorithm ∈ ALGORITHMS.map Prod.fst ∧ algorithm ≠ "best_fit" := by
  unfold sweepAlgorithms at h
  have h2 := List.mem_filter.mp h
  exact ⟨h2.1, by simpa using h2.2⟩

/-- `generate_forecast_dates` always yields one date per requested period. -/
theorem generate_forecast_dates_length (d : DateYMD) (p : ℕ) (interval : String) :
    (generate_forecast_dates d p interval).length = p := by
  unfold generate_forecast_dates
  suffices h : ∀ (l : List ℕ) (acc : List DateYMD) (c : DateYMD),
      ((l.foldl (fun acc _ =>
        let cur := acc.2
        let nxt :=
          if interval = "week" then addDays cur 7
          else if interval = "month" then addOneMonth cur
          else if interval = "year" then addOneYear cur
          else addOneMonth cur
        (acc.1 ++ [nxt], nxt)) (acc, c)).1).length = acc.length + l.length by
    simpa using h (List.range p) [] d
  intro l
  induction l with
  | nil => intro acc c; simp
  | cons x t ih =>
    intro acc c
    simp only [List.foldl_cons]
    rw [ih]
    simp
    omega

/-- C2: for every sweep algorithm id, `run_algorithm` never propagates an
exception raised by the dispatched algorithm — it always returns a result,
and when the algorithm raises it returns the degraded result
(`accuracy 0`, `mae 999`, `rmse 999`, empty data, stable trend) with no
cache write; for an id outside the catalog the failure surfaces as a
`KeyError` naming the unknown algorithm id. -/
theorem C2_failure_isolation :
    (∀ (impls : String → AlgoFn) (fallbackFit : String → List ℚ → List ℚ)
        (algorithm : String) (data : List Row) (cfg : Config) (saveModel : Bool),
        algorithm ∈ sweepAlgorithms →
        ∃ r, (run_algorithm impls fallbackFit algorithm data cfg saveModel).1 = .ok r) ∧
    (∀ (impls : String → AlgoFn) (fallbackFit : String → List ℚ → List ℚ)
        (algorithm : String) (data : List Row) (cfg : Config) (saveModel : Bool)
        (name msg : String),
        algorithm ∈ sweepAlgorithms →
        ALGORITHMS.lookup algorithm = some name →
        impls algorithm (trainPart data) (horizonOf data cfg) = .error msg →
        run_algorithm impls fallbackFit algorithm data cfg saveModel =
          (.ok ⟨name, 0, 999, 999, [], [], "stable"⟩, [])) ∧
    (∀ (impls : String → AlgoFn) (fallbackFit : String → List ℚ → List ℚ)
        (algorithm : String) (data : List Row) (cfg : Config) (saveModel : Bool),
        ALGORITHMS.lookup algorithm = none →
        run_algorithm impls fallbackFit algorithm data cfg saveModel =
          (.error ("KeyError: " ++ algorithm), [])) := by
  refine ⟨?_, ?_, ?_⟩
  · intro impls fallbackFit algorithm data cfg saveModel halg
    have hs := sweep_mem_spec halg
    have hcond : ((ALGORITHMS.map Prod.fst).contains algorithm = true) ∧
        algorithm ≠ "best_fit" := ⟨List.elem_iff.mpr hs.1, hs.2⟩
    simp only [run_algorithm]
    rw [if_pos hcond]
    cases himpl : impls algorithm (trainPart data) (horizonOf data cfg) with
    | ok p =>
      obtain ⟨f, m⟩ := p
      exact ⟨_, rfl⟩
    | error e =>
      obtain ⟨dn, hdn⟩ := Option.isSome_iff_exists.mp
        (lookup_isSome_of_mem_keys ALGORITHMS algorithm hs.1)
      rw [hdn]
      exact ⟨_, rfl⟩
  · intro impls fallbackFit algorithm data cfg saveModel name msg halg hname himpl
    have hs := sweep_mem_spec halg
    have hcond : ((ALGORITHMS.map Prod.fst).contains algorithm = true) ∧
        algorithm ≠ "best_fit" := ⟨List.elem_iff.mpr hs.1, hs.2⟩
    simp only [run_algorithm]
    rw [if_pos hcond, himpl, hname]
  · intro impls fallbackFit algorithm data cfg saveModel hlk
    have hnm := not_mem_keys_of_lookup_none ALGORITHMS algorithm hlk
    have hcond : ¬(((ALGORITHMS.map Prod.fst).contains algorithm = true) ∧
        algorithm ≠ "best_fit") := fun hc => hnm (List.elem_iff.mp hc.1)
    simp only [run_algorithm]
    rw [if_neg hcond, hlk]

/-- Witness for C2: a concrete raising algorithm degrades, and a concrete
unknown id surfaces as a `KeyError`. -/
theorem C2_failure_isolation_witness :
    run_algorithm (fun _ _ _ => .error "boom") fbId "arima" data10 cfg10 true =
      (.ok ⟨"ARIMA (Simple)", 0, 999, 999, [], [], "stable"⟩, []) ∧
    run_algorithm implsExp fbId "no_such_algorithm" data10 cfg10 true =
      (.error ("KeyError: " ++ "no_such_algorithm"), []) :=
  ⟨C2_failure_isolation.2.1 (fun _ _ _ => .error "boom") fbId "arima" data10 cfg10
      true "ARIMA (Simple)" "boom" (by decide) (by decide) rfl,
   C2_failure_isolation.2.2 implsExp fbId "no_such_algorithm" data10 cfg10 true
      (by decide)⟩

/-- The shape of `run_algorithm`'s output when the dispatched algorithm
returns normally: the result is built from the forecast vector zipped with
the generated future dates, and exactly one `save_model` call is logged —
independently of the `saveModel` flag. -/
theorem run_algorithm_ok_parts (impls : String → AlgoFn)
    (fallbackFit : String → List ℚ → List ℚ) (algorithm : String)
    (data : List Row) (cfg : Config) (saveModel : Bool) (f : List ℚ) (m : MetricsQ)
    (halg : algorithm ∈ sweepAlgorithms)
    (himpl : impls algorithm (trainPart data) (horizonOf data cfg) = .ok (f, m)) :
    ∃ r, run_algorithm impls fallbackFit algorithm data cfg saveModel =
        (.ok r, [⟨algorithm⟩]) ∧
      r.forecastData =
        ((generate_forecast_dates (((data.getLast?).map (·.date)).getD ⟨1, 1, 1⟩)
            cfg.forecastPeriod cfg.interval).zip f).map
          (fun p => DataPoint.mk p.1 p.2 (format_period p.1 cfg.interval)) := by
  have hs := sweep_mem_spec halg
  have hcond : ((ALGORITHMS.map Prod.fst).contains algorithm = true) ∧
      algorithm ≠ "best_fit" := ⟨List.elem_iff.mpr hs.1, hs.2⟩
  simp only [run_algorithm]
  rw [if_pos hcond, himpl]
  exact ⟨_, rfl, rfl⟩

/-- Every iteration of `exponential_smoothing_forecast`'s alpha loop
computes the same candidate, so on a non-empty series and any non-empty
alpha list the function returns the first candidate: the last rolling-mean
value repeated, with the rolling-mean in-sample metrics. -/
theorem exp_smoothing_const (y : List ℚ) (p : ℕ) (hy : y ≠ [])
    (alphas : List ℚ) (ha : alphas ≠ []) :
    exponential_smoothing_forecast y p alphas =
      some (List.replicate p (((rollingMean y (min 3 y.length)).getLast?).getD 0),
            calculate_metrics (y.drop (min 3 y.length - 1))
              ((rollingMean y (min 3 y.length)).drop (min 3 y.length - 1))) := by
  have hne : rollingMean y (min 3 y.length) ≠ [] := by
    intro h
    apply hy
    have hlen : (rollingMean y (min 3 y.length)).length = y.length := by
      simp [rollingMean]
    rw [h] at hlen
    exact List.length_eq_zero.mp hlen.symm
  obtain ⟨z, hz⟩ := Option.isSome_iff_exists.mp
    ((List.getLast?_isSome).mpr hne)
  have hstep_none : ∀ a : ℚ, esfStep y p none a =
      some (List.replicate p z,
        calculate_metrics (y.drop (min 3 y.length - 1))
          ((rollingMean y (min 3 y.length)).drop (min 3 y.length - 1))) := by
    intro a
    simp [esfStep, hz]
  have hstep_some : ∀ a : ℚ, esfStep y p
      (some (List.replicate p z,
        calculate_metrics (y.drop (min 3 y.length - 1))
          ((rollingMean y (min 3 y.length)).drop (min 3 y.length - 1)))) a =
      some (List.replicate p z,
        calculate_metrics (y.drop (min 3 y.length - 1))
          ((rollingMean y (min 3 y.length)).drop (min 3 y.length - 1))) := by
    intro a
    simp [esfStep, hz]
  have haux : ∀ l : List ℚ,
      l.foldl (esfStep y p)
        (some (List.replicate p z,
          calculate_metrics (y.drop (min 3 y.length - 1))
            ((rollingMean y (min 3 y.length)).drop (min 3 y.length - 1)))) =
      some (List.replicate p z,
        calculate_metrics (y.drop (min 3 y.length - 1))
          ((rollingMean y (min 3 y.length)).drop (min 3 y.length - 1))) := by
    intro l
    induction l with
    | nil => rfl
    | cons a t ih => rw [List.foldl_cons, hstep_some]; exact ih
  unfold exponential_smoothing_forecast
  rw [hz]
  simp only [Option.getD_some]
  cases alphas with
  | nil => exact absurd rfl ha
  | cons a t =>
    rw [List.foldl_cons, hstep_none]
    exact haux t

/-- Rolling means of a non-negative series are non-negative. -/
theorem rollingMean_nonneg (y : List ℚ) (w : ℕ) (hy : ∀ v ∈ y, 0 ≤ v) :
    ∀ x ∈ rollingMean y w, 0 ≤ x := by
  intro x hx
  unfold rollingMean at hx
  obtain ⟨i, _, rfl⟩ := List.mem_map.mp hx
  apply div_nonneg
  · apply List.sum_nonneg
    intro v hv
    exact hy v (List.mem_of_mem_drop (List.mem_of_mem_take hv))
  · positivity

/-- The quantities of the four-point witness series. -/
def yW : List ℚ := (trainPart dataW).map (·.quantity)

/-- The constant-level forecast value of the witness series. -/
def zW : ℚ := ((rollingMean yW (min 3 yW.length)).getLast?).getD 0

/-- The in-sample metrics of the witness series. -/
def mW : MetricsQ :=
  calculate_metrics (yW.drop (min 3 yW.length - 1))
    ((rollingMean yW (min 3 yW.length)).drop (min 3 yW.length - 1))

/-- The embedded exponential smoothing algorithm evaluated on the witness
series: a constant forecast of `zW` over the requested horizon. -/
theorem implsExp_dataW_eval :
    implsExp "exponential_smoothing" (trainPart dataW) (horizonOf dataW cfgW) =
      .ok (List.replicate (horizonOf dataW cfgW) zW, mW) := by
  have hconst := exp_smoothing_const yW (horizonOf dataW cfgW)
    (by decide) [1/10, 3/10, 5/10] (by decide)
  unfold implsExp expSmoothingAlgo
  rw [if_pos rfl]
  rw [show (trainPart dataW).map (·.quantity) = yW from rfl, hconst]
  rfl

/-- The witness forecast value is non-negative. -/
theorem zW_nonneg : 0 ≤ zW := by
  unfold zW
  cases hz : (rollingMean yW (min 3 yW.length)).getLast? with
  | none => simp
  | some x =>
    simp only [Option.getD_some]
    have hxl : x ∈ rollingMean yW (min 3 yW.length) := by
      obtain ⟨hne, hx⟩ := List.mem_getLast?_eq_getLast (Option.mem_def.mpr hz)
      rw [hx]
      exact List.getLast_mem hne
    apply rollingMean_nonneg yW (min 3 yW.length) ?_ x hxl
    intro v hv
    have : v = 4 := by
      have : yW = [4, 4, 4, 4] := by decide
      rw [this] at hv
      simpa using hv
    rw [this]
    norm_num

/-- C3: the per-algorithm runs of a sweep do call the model-cache save
operation even with `save_model=False` — the flag is never read: on a
concrete series the dispatched algorithm succeeds and `run_algorithm` logs
exactly one `save_model` call for either flag value. -/
theorem C3_sweep_cache_write :
    implsExp "exponential_smoothing" (trainPart dataW) (horizonOf dataW cfgW) =
      .ok (List.replicate (horizonOf dataW cfgW) zW, mW) ∧
    ∀ b : Bool,
      (run_algorithm implsExp fbId "exponential_smoothing" dataW cfgW b).2 =
        [⟨"exponential_smoothing"⟩] := by
  refine ⟨implsExp_dataW_eval, ?_⟩
  intro b
  obtain ⟨r, hr, _⟩ := run_algorithm_ok_parts implsExp fbId "exponential_smoothing"
    dataW cfgW b _ _ (by decide) implsExp_dataW_eval
  rw [hr]

/-- C1 counterexample: on a ten-point series with `forecastPeriod = 6` the
forecastData list of `run_algorithm` has 2 points (the length of the
held-out test slice), not `forecastPeriod` many — the source zips
`forecastPeriod` future dates against a forecast vector of test length. -/
theorem C1_count_counterexample :
    2 ≤ data10.length ∧ "exponential_smoothing" ∈ sweepAlgorithms ∧
    cfg10.forecastPeriod = 6 ∧
    ∃ r, (run_algorithm implsExp fbId "exponential_smoothing" data10 cfg10 true).1 =
        .ok r ∧ r.forecastData.length = 2 := by
  refine ⟨by decide, by decide, rfl, ?_⟩
  have hy : (trainPart data10).map (·.quantity) ≠ [] := by decide
  have hconst := exp_smoothing_const ((trainPart data10).map (·.quantity))
    (horizonOf data10 cfg10) hy [1/10, 3/10, 5/10] (by decide)
  have himpl : implsExp "exponential_smoothing" (trainPart data10)
      (horizonOf data10 cfg10) =
      .ok (List.replicate (horizonOf data10 cfg10)
        (((rollingMean ((trainPart data10).map (·.quantity))
            (min 3 ((trainPart data10).map (·.quantity)).length)).getLast?).getD 0),
        calculate_metrics
          (((trainPart data10).map (·.quantity)).drop
            (min 3 ((trainPart data10).map (·.quantity)).length - 1))
          ((rollingMean ((trainPart data10).map (·.quantity))
            (min 3 ((trainPart data10).map (·.quantity)).length)).drop
            (min 3 ((trainPart data10).map (·.quantity)).length - 1))) := by
    unfold implsExp expSmoothingAlgo
    rw [if_pos rfl, hconst]
  obtain ⟨r, hr, hfd⟩ := run_algorithm_ok_parts implsExp fbId "exponential_smoothing"
    data10 cfg10 true _ _ (by decide) himpl
  refine ⟨r, by rw [hr], ?_⟩
  rw [hfd]
  simp only [List.length_map, List.length_zip, generate_forecast_dates_length,
    List.length_replicate]
  decide

/-- C1 amended: for a dispatched algorithm returning a forecast vector of
the requested horizon with non-negative entries, `run_algorithm`'s
forecastData has exactly `min(forecastPeriod, horizon)` points — which
equals `forecastPeriod` exactly when the series is too short to split
(length < 6) — and every forecast quantity in it is non-negative. -/
theorem C1_amended_forecast_shape (impls : String → AlgoFn)
    (fallbackFit : String → List ℚ → List ℚ) (algorithm : String)
    (data : List Row) (cfg : Config) (saveModel : Bool) (f : List ℚ) (m : MetricsQ)
    (halg : algorithm ∈ sweepAlgorithms) (hdata : 2 ≤ data.length)
    (himpl : impls algorithm (trainPart data) (horizonOf data cfg) = .ok (f, m))
    (hflen : f.length = horizonOf data cfg) (hfnn : ∀ q ∈ f, 0 ≤ q) :
    ∃ r, (run_algorithm impls fallbackFit algorithm data cfg saveModel).1 = .ok r ∧
      r.forecastData.length = min cfg.forecastPeriod (horizonOf data cfg) ∧
      (data.length < 6 → r.forecastData.length = cfg.forecastPeriod) ∧
      ∀ p ∈ r.forecastData, 0 ≤ p.quantity := by
  obtain ⟨r, hr, hfd⟩ := run_algorithm_ok_parts impls fallbackFit algorithm
    data cfg saveModel f m halg himpl
  have hlen : r.forecastData.length = min cfg.forecastPeriod (horizonOf data cfg) := by
    rw [hfd]
    simp [List.length_zip, generate_forecast_dates_length, hflen]
  refine ⟨r, by rw [hr], hlen, ?_, ?_⟩
  · intro h6
    have hh : horizonOf data cfg = cfg.forecastPeriod := by
      unfold horizonOf testPart
      rw [if_pos h6]
    rw [hlen, hh, min_self]
  · intro p hp
    rw [hfd] at hp
    obtain ⟨pair, hpair, rfl⟩ := List.mem_map.mp hp
    exact hfnn pair.2 (List.of_mem_zip hpair).2

/-- Witness for the amended C1 on the concrete four-point series. -/
theorem C1_amended_forecast_shape_witness :
    ∃ r, (run_algorithm implsExp fbId "exponential_smoothing" dataW cfgW true).1 =
        .ok r ∧
      r.forecastData.length = min cfgW.forecastPeriod (horizonOf dataW cfgW) ∧
      (dataW.length < 6 → r.forecastData.length = cfgW.forecastPeriod) ∧
      ∀ p ∈ r.forecastData, 0 ≤ p.quantity :=
  C1_amended_forecast_shape implsExp fbId "exponential_smoothing" dataW cfgW true
    (List.replicate (horizonOf dataW cfgW) zW) mW (by decide) (by decide)
    implsExp_dataW_eval (List.length_replicate _ _)
    (fun q hq => (List.eq_of_mem_replicate hq) ▸ zW_nonneg)

/-- C10: the output of `exponential_smoothing_forecast` does not depend on
its `alphas` hyperparameter list — any two non-empty lists give identical
forecast and metrics, namely the last value of the `min(3, n)`-window
rolling mean repeated `horizon` times with the rolling-mean in-sample
metrics. -/
theorem C10_alpha_independent (y : List ℚ) (p : ℕ) (a1 a2 : List ℚ)
    (hy : y ≠ []) (h1 : a1 ≠ []) (h2 : a2 ≠ []) :
    exponential_smoothing_forecast y p a1 = exponential_smoothing_forecast y p a2 ∧
    exponential_smoothing_forecast y p a1 =
      some (List.replicate p (((rollingMean y (min 3 y.length)).getLast?).getD 0),
            calculate_metrics (y.drop (min 3 y.length - 1))
              ((rollingMean y (min 3 y.length)).drop (min 3 y.length - 1))) := by
  have e1 := exp_smoothing_const y p hy a1 h1
  have e2 := exp_smoothing_const y p hy a2 h2
  exact ⟨e1.trans e2.symm, e1⟩

/-- Witness for C10 on a concrete series and two concrete alpha lists. -/
theorem C10_alpha_independent_witness :
    exponential_smoothing_forecast [1, 2, 3] 2 [1/2] =
      exponential_smoothing_forecast [1, 2, 3] 2 [1/10, 9/10] ∧
    exponential_smoothing_forecast [1, 2, 3] 2 [1/2] =
      some (List.replicate 2
          (((rollingMean [1, 2, 3] (min 3 (List.length [1, 2, 3]))).getLast?).getD 0),
        calculate_metrics (List.drop (min 3 (List.length [1, 2, 3]) - 1) [1, 2, 3])
          ((rollingMean [1, 2, 3] (min 3 (List.length [1, 2, 3]))).drop
            (min 3 (List.length [1, 2, 3]) - 1))) :=
  C10_alpha_independent [1, 2, 3] 2 [1/2] [1/10, 9/10]
    (by decide) (by decide) (by decide)

/-- C9: when every grid configuration's fit fails, `ses_forecast` does not
return a pair — its "fallback to previous method" line re-enters
`ses_forecast` itself with unchanged arguments, and the recursion consumes
the whole recursion budget and surfaces a `RecursionError`. -/
theorem C9_ses_no_fit_recursion (oracle : SesConfig → Option SesFit)
    (y : List ℚ) (p : ℕ) (hor : ∀ c, oracle c = none) (hy : 2 ≤ y.length) :
    ∀ fuel : ℕ, ses_forecast oracle y p fuel =
      .error "RecursionError: maximum recursion depth exceeded" := by
  have hbest : sesBestFit oracle = none := by
    unfold sesBestFit
    have haux : ∀ l : List SesConfig, l.foldl (fun best c =>
        match oracle c with
        | none => best
        | some fit =>
          match best with
          | none => some fit
          | some b => if fit.aic < b.aic then some fit else some b) none = none := by
      intro l
      induction l with
      | nil => rfl
      | cons c t ih => rw [List.foldl_cons, hor c]; exact ih
    exact haux sesGrid
  intro fuel
  induction fuel with
  | zero => rfl
  | succ n ih =>
    rw [ses_forecast, if_neg (by omega), hbest]
    exact ih

/-- Witness for C9 with an always-failing fit oracle and concrete fuel. -/
theorem C9_ses_no_fit_recursion_witness :
    ses_forecast (fun _ => none) [1, 2] 3 5 =
      .error "RecursionError: maximum recursion depth exceeded" :=
  C9_ses_no_fit_recursion (fun _ => none) [1, 2] 3 (fun _ => rfl) (by decide) 5

/-! ## Expander lemmas (C7) -/

/-- The successful combinations of a run, in combination order. -/
def successesOf {α : Type} (step : α → StepResult) (key : α → String)
    (combos : List α) : List ComboResult :=
  combos.filterMap (fun c =>
    match step c with
    | .success a => some ⟨key c, a⟩
    | .failure _ => none)

/-- The failed combinations of a run with their reasons, in order. -/
def failuresOf {α : Type} (step : α → StepResult) (key : α → String)
    (combos : List α) : List (String × String) :=
  combos.filterMap (fun c =>
    match step c with
    | .failure reason => some (key c, reason)
    | .success _ => none)

/-- Every combination lands in exactly one of the two buckets. -/
theorem successes_failures_length {α : Type} (step : α → StepResult)
    (key : α → String) (combos : List α) :
    (successesOf step key combos).length + (failuresOf step key combos).length =
      combos.length := by
  induction combos with
  | nil => rfl
  | cons c t ih =>
    unfold successesOf failuresOf at ih ⊢
    cases hc : step c with
    | success a => simp [List.filterMap_cons, hc]; omega
    | failure reason => simp [List.filterMap_cons, hc]; omega

/-- The loop state of `runCombinations` in closed form. -/
theorem runCombos_state {α : Type} (step : α → StepResult) (key : α → String) :
    ∀ (combos : List α) (acc : List ComboResult × ℕ × List (String × String)),
      combos.foldl (fun acc combo =>
        match step combo with
        | .success a => (acc.1 ++ [⟨key combo, a⟩], acc.2.1 + 1, acc.2.2)
        | .failure reason => (acc.1, acc.2.1, acc.2.2 ++ [(key combo, reason)])) acc =
      (acc.1 ++ successesOf step key combos,
       acc.2.1 + (successesOf step key combos).length,
       acc.2.2 ++ failuresOf step key combos) := by
  intro combos
  induction combos with
  | nil => intro acc; simp [successesOf, failuresOf]
  | cons c t ih =>
    intro acc
    rw [List.foldl_cons]
    cases hc : step c with
    | success a =>
      simp only [hc]
      rw [ih]
      unfold successesOf failuresOf
      simp [List.filterMap_cons, hc, List.append_assoc]
      omega
    | failure reason =>
      simp only [hc]
      rw [ih]
      unfold successesOf failuresOf
      simp [List.filterMap_cons, hc, List.append_assoc]

/-- Python `max(..., key=accuracy)` over `ComboResult`s: the scan keeps a
member that dominates the list. -/
theorem pyMaxByAccuracy_spec (r : ComboResult) (rs : List ComboResult) :
    ∃ b, pyMaxByAccuracy (r :: rs) = some b ∧ b ∈ r :: rs ∧
      ∀ x ∈ r :: rs, x.accuracy ≤ b.accuracy := by
  suffices h : ∀ (l : List ComboResult) (b : ComboResult),
      ∃ c, l.foldl (fun best r =>
        match best with
        | none => some r
        | some bb => if r.accuracy > bb.accuracy then some r else some bb) (some b) =
          some c ∧ (c = b ∨ c ∈ l) ∧ b.accuracy ≤ c.accuracy ∧
          ∀ x ∈ l, x.accuracy ≤ c.accuracy by
    obtain ⟨c, hc, hmem, hge, hall⟩ := h rs r
    refine ⟨c, by simpa [pyMaxByAccuracy] using hc, ?_, ?_⟩
    · rcases hmem with h1 | h1
      · rw [h1]; exact List.mem_cons_self r rs
      · exact List.mem_cons_of_mem r h1
    · intro x hx
      rcases List.mem_cons.mp hx with h1 | h1
      · rw [h1]; exact hge
      · exact hall x h1
  intro l
  induction l with
  | nil => intro b; exact ⟨b, rfl, Or.inl rfl, le_refl _, by simp⟩
  | cons y ys ih =>
    intro b
    simp only [List.foldl_cons]
    by_cases hyb : y.accuracy > b.accuracy
    · obtain ⟨c, hc, hmem, hge, hall⟩ := ih y
      rw [if_pos hyb]
      refine ⟨c, hc, ?_, le_of_lt (lt_of_lt_of_le hyb hge), ?_⟩
      · rcases hmem with h1 | h1
        · exact Or.inr (h1 ▸ List.mem_cons_self y ys)
        · exact Or.inr (List.mem_cons_of_mem y h1)
      · intro x hx
        rcases List.mem_cons.mp hx with h1 | h1
        · rw [h1]; exact hge
        · exact hall x h1
    · obtain ⟨c, hc, hmem, hge, hall⟩ := ih b
      rw [if_neg hyb]
      refine ⟨c, hc, ?_, hge, ?_⟩
      · rcases hmem with h1 | h1
        · exact Or.inl h1
        · exact Or.inr (List.mem_cons_of_mem y h1)
      · intro x hx
        rcases List.mem_cons.mp hx with h1 | h1
        · rw [h1]; exact le_trans (not_lt.mp hyb) hge
        · exact hall x h1

/-- Python `min(..., key=accuracy)` over `ComboResult`s. -/
theorem pyMinByAccuracy_spec (r : ComboResult) (rs : List ComboResult) :
    ∃ b, pyMinByAccuracy (r :: rs) = some b ∧ b ∈ r :: rs ∧
      ∀ x ∈ r :: rs, b.accuracy ≤ x.accuracy := by
  suffices h : ∀ (l : List ComboResult) (b : ComboResult),
      ∃ c, l.foldl (fun best r =>
        match best with
        | none => some r
        | some bb => if r.accuracy < bb.accuracy then some r else some bb) (some b) =
          some c ∧ (c = b ∨ c ∈ l) ∧ c.accuracy ≤ b.accuracy ∧
          ∀ x ∈ l, c.accuracy ≤ x.accuracy by
    obtain ⟨c, hc, hmem, hle, hall⟩ := h rs r
    refine ⟨c, by simpa [pyMinByAccuracy] using hc, ?_, ?_⟩
    · rcases hmem with h1 | h1
      · rw [h1]; exact List.mem_cons_self r rs
      · exact List.mem_cons_of_mem r h1
    · intro x hx
      rcases List.mem_cons.mp hx with h1 | h1
      · rw [h1]; exact hle
      · exact hall x h1
  intro l
  induction l with
  | nil => intro b; exact ⟨b, rfl, Or.inl rfl, le_refl _, by simp⟩
  | cons y ys ih =>
    intro b
    simp only [List.foldl_cons]
    by_cases hyb : y.accuracy < b.accuracy
    · obtain ⟨c, hc, hmem, hle, hall⟩ := ih y
      rw [if_pos hyb]
      refine ⟨c, hc, ?_, le_of_lt (lt_of_le_of_lt hle hyb), ?_⟩
      · rcases hmem with h1 | h1
        · exact Or.inr (h1 ▸ List.mem_cons_self y ys)
        · exact Or.inr (List.mem_cons_of_mem y h1)
      · intro x hx
        rcases List.mem_cons.mp hx with h1 | h1
        · rw [h1]; exact hle
        · exact hall x h1
    · obtain ⟨c, hc, hmem, hle, hall⟩ := ih b
      rw [if_neg hyb]
      refine ⟨c, hc, ?_, hle, ?_⟩
      · rcases hmem with h1 | h1
        · exact Or.inl h1
        · exact Or.inr (List.mem_cons_of_mem y h1)
      · intro x hx
        rcases List.mem_cons.mp hx with h1 | h1
        · rw [h1]; exact le_trans hle (not_lt.mp hyb)
        · exact hall x h1

/-- The behavior claim C7 makes of one expander run: on a normal return the
summary is computed over exactly the successes (results list, counts that
add up to the total, the failure details, the rounded mean accuracy and the
best/worst members), and the run raises exactly when no combination
succeeded. -/
def ExpanderOk {α : Type} (step : α → StepResult) (key : α → String)
    (combos : List α) (out : Except String MultiResult) : Prop :=
  (∀ mr : MultiResult, out = .ok mr →
    mr.results = successesOf step key combos ∧
    mr.totalCombinations = combos.length ∧
    mr.summary.successfulCombinations = (successesOf step key combos).length ∧
    mr.summary.failedCombinations = (failuresOf step key combos).length ∧
    mr.summary.successfulCombinations + mr.summary.failedCombinations =
      mr.totalCombinations ∧
    mr.summary.failedDetails = failuresOf step key combos ∧
    mr.summary.averageAccuracy =
      roundTo 2 (qMean ((successesOf step key combos).map (·.accuracy))) ∧
    (∃ b ∈ mr.results, mr.summary.bestCombination = (b.combination, b.accuracy) ∧
      ∀ x ∈ mr.results, x.accuracy ≤ b.accuracy) ∧
    (∃ w ∈ mr.results, mr.summary.worstCombination = (w.combination, w.accuracy) ∧
      ∀ x ∈ mr.results, w.accuracy ≤ x.accuracy)) ∧
  ((∃ e, out = .error e) ↔ successesOf step key combos = [])

/-- `runCombinations` satisfies `ExpanderOk` for any pipeline oracle. -/
theorem runCombinations_spec {α : Type} (step : α → StepResult)
    (key : α → String) (combos : List α) :
    ExpanderOk step key combos (runCombinations step key combos) := by
  unfold ExpanderOk runCombinations
  simp only [runCombos_state, List.nil_append, Nat.zero_add]
  by_cases hS : successesOf step key combos = []
  · rw [if_pos hS]
    constructor
    · intro mr hmr
      exact absurd hmr (by simp)
    · exact ⟨fun _ => hS, fun _ => ⟨_, rfl⟩⟩
  · rw [if_neg hS]
    constructor
    · intro mr hmr
      injection hmr with hmr2
      subst hmr2
      refine ⟨rfl, rfl, rfl, rfl, successes_failures_length step key combos, rfl,
        rfl, ?_, ?_⟩
      · cases hC : successesOf step key combos with
        | nil => exact absurd hC hS
        | cons s0 ss =>
          obtain ⟨b, hb, hbmem, hball⟩ := pyMaxByAccuracy_spec s0 ss
          refine ⟨b, hbmem, ?_, ?_⟩
          · simp [hb]
          · intro x hx
            exact hball x hx
      · cases hC : successesOf step key combos with
        | nil => exact absurd hC hS
        | cons s0 ss =>
          obtain ⟨w, hw, hwmem, hwall⟩ := pyMinByAccuracy_spec s0 ss
          refine ⟨w, hwmem, ?_, ?_⟩
          · simp [hw]
          · intro x hx
            exact hwall x hx
    · constructor
      · intro ⟨e, he⟩
        exact absurd he (by simp)
      · intro h
        exact absurd h hS

/-- C7: in both the three-dimension and the two-dimension expansion a
combination whose pipeline raises is recorded in `failedDetails` with its
(non-empty) reason and does not prevent other combinations from appearing
in `results`; successful plus failed counts equal the total, the summary
statistics range over the successes only, and the run raises exactly when
zero combinations succeed. -/
theorem C7_multi_combination_isolation
    (step : String × String × String → StepResult)
    (products customers locations : List String)
    (hne : ∀ combo reason, step combo = .failure reason → reason ≠ "") :
    ExpanderOk step tripleKey (tripleCombos products customers locations)
      (generate_forecast_three_dimensions step products customers locations) ∧
    ExpanderOk step pairKey (pairCombos products customers locations)
      (generate_forecast_two_dimensions step products customers locations) ∧
    ∀ (combos : List (String × String × String))
      (key : String × String × String → String),
      (∀ combo ∈ combos, ∀ reason, step combo = .failure reason →
        (key combo, reason) ∈ failuresOf step key combos ∧ reason ≠ "") ∧
      (∀ combo ∈ combos, ∀ a, step combo = .success a →
        (⟨key combo, a⟩ : ComboResult) ∈ successesOf step key combos) := by
  refine ⟨runCombinations_spec step tripleKey _,
    runCombinations_spec step pairKey _, ?_⟩
  intro combos key
  constructor
  · intro combo hc reason hr
    refine ⟨List.mem_filterMap.mpr ⟨combo, hc, ?_⟩, hne combo reason hr⟩
    rw [hr]
  · intro combo hc a hs
    refine List.mem_filterMap.mpr ⟨combo, hc, ?_⟩
    rw [hs]

/-- A concrete pipeline oracle failing exactly on customer `C1`. -/
def stepWit : String × String × String → StepResult := fun c =>
  if c.2.1 = "C1" then .failure "No data found" else .success 80

/-- Witness for C7 with a concrete mixed success/failure expansion. -/
theorem C7_multi_combination_isolation_witness :
    ExpanderOk stepWit tripleKey (tripleCombos ["P"] ["C1", "C2"] ["L"])
      (generate_forecast_three_dimensions stepWit ["P"] ["C1", "C2"] ["L"]) ∧
    ExpanderOk stepWit pairKey (pairCombos ["P"] ["C1", "C2"] ["L"])
      (generate_forecast_two_dimensions stepWit ["P"] ["C1", "C2"] ["L"]) ∧
    ∀ (combos : List (String × String × String))
      (key : String × String × String → String),
      (∀ combo ∈ combos, ∀ reason, stepWit combo = .failure reason →
        (key combo, reason) ∈ failuresOf stepWit key combos ∧ reason ≠ "") ∧
      (∀ combo ∈ combos, ∀ a, stepWit combo = .success a →
        (⟨key combo, a⟩ : ComboResult) ∈ successesOf stepWit key combos) :=
  C7_multi_combination_isolation stepWit ["P"] ["C1", "C2"] ["L"]
    (by
      intro combo reason h
      unfold stepWit at h
      by_cases hcc : combo.2.1 = "C1"
      · rw [if_pos hcc] at h
        injection h with h2
        rw [← h2]
        decide
      · rw [if_neg hcc] at h
        exact absurd h (by simp))

/-! ## Aggregator lemmas (C8) -/

/-- First-occurrence lookup in an association list (how a reader retrieves
the quantity a groupby result assigns to a key). -/
def getQ {κ : Type} [DecidableEq κ] : List (κ × ℚ) → κ → ℚ
  | [], _ => 0
  | e :: rest, k => if e.1 = k then e.2 else getQ rest k

/-- The raw-quantity sum over the records carrying a given key. -/
def sumFor {ρ κ : Type} [DecidableEq κ] (keyfn : ρ → κ) (qty : ρ → ℚ)
    (rs : List ρ) (k : κ) : ℚ :=
  ((rs.filter (fun r => decide (keyfn r = k))).map qty).sum

/-- `addToGroup` adds the quantity onto the entry of its own key. -/
theorem addToGroup_getQ_same {κ : Type} [DecidableEq κ]
    (k : κ) (q : ℚ) : ∀ acc : List (κ × ℚ),
    getQ (addToGroup acc k q) k = getQ acc k + q := by
  intro acc
  induction acc with
  | nil => simp [addToGroup, getQ]
  | cons e rest ih =>
    obtain ⟨k2, q2⟩ := e
    by_cases hk : k = k2
    · subst hk
      simp [addToGroup, getQ]
    · have hk2 : ¬(k2 = k) := fun h => hk h.symm
      simp [addToGroup, getQ, hk, hk2, ih]

/-- `addToGroup` leaves every other key's entry unchanged. -/
theorem addToGroup_getQ_other {κ : Type} [DecidableEq κ]
    (k k3 : κ) (q : ℚ) (hne : k3 ≠ k) : ∀ acc : List (κ × ℚ),
    getQ (addToGroup acc k q) k3 = getQ acc k3 := by
  intro acc
  induction acc with
  | nil =>
    have h2 : ¬(k = k3) := fun h => hne h.symm
    simp [addToGroup, getQ, h2]
  | cons e rest ih =>
    obtain ⟨k2, q2⟩ := e
    have h2 : ¬(k = k3) := fun h => hne h.symm
    by_cases hk : k = k2
    · subst hk
      simp [addToGroup, getQ, h2]
    · by_cases hk3 : k2 = k3
      · simp [addToGroup, getQ, hk, hk3, h2]
      · simp [addToGroup, getQ, hk, hk3, ih]

/-- The per-key value of the groupby fold: seed value plus the sum of the
quantities of the records carrying the key. -/
theorem getQ_groupSum_aux {ρ κ : Type} [DecidableEq κ] (keyfn : ρ → κ)
    (qty : ρ → ℚ) : ∀ (rs : List ρ) (acc : List (κ × ℚ)) (k : κ),
    getQ (rs.foldl (fun a r => addToGroup a (keyfn r) (qty r)) acc) k =
      getQ acc k + sumFor keyfn qty rs k := by
  intro rs
  induction rs with
  | nil => intro acc k; simp [sumFor]
  | cons r t ih =>
    intro acc k
    rw [List.foldl_cons, ih]
    by_cases hk : keyfn r = k
    · rw [hk, addToGroup_getQ_same]
      simp only [sumFor, List.filter_cons, hk]
      simp
      ring
    · rw [addToGroup_getQ_other (keyfn r) k (qty r) (fun h => hk h.symm)]
      simp only [sumFor, List.filter_cons]
      simp [hk]

/-- The keys of `addToGroup`: unchanged when the key is present, else the
key is appended. -/
theorem addToGroup_keys {κ : Type} [DecidableEq κ] (k : κ) (q : ℚ) :
    ∀ acc : List (κ × ℚ),
    (addToGroup acc k q).map Prod.fst =
      if k ∈ acc.map Prod.fst then acc.map Prod.fst
      else acc.map Prod.fst ++ [k] := by
  intro acc
  induction acc with
  | nil => simp [addToGroup]
  | cons e rest ih =>
    obtain ⟨k2, q2⟩ := e
    by_cases hk : k = k2
    · subst hk
      simp [addToGroup]
    · have hk2 : ¬(k2 = k) := fun h => hk h.symm
      by_cases hmem : k ∈ rest.map Prod.fst
      · simp [addToGroup, hk, ih, hmem, hk2]
      · simp [addToGroup, hk, ih, hmem, hk2]

/-- Key membership across the groupby fold. -/
theorem groupSum_keys_mem {ρ κ : Type} [DecidableEq κ] (keyfn : ρ → κ)
    (qty : ρ → ℚ) : ∀ (rs : List ρ) (acc : List (κ × ℚ)) (k : κ),
    (k ∈ (rs.foldl (fun a r => addToGroup a (keyfn r) (qty r)) acc).map Prod.fst) ↔
      (k ∈ acc.map Prod.fst ∨ ∃ r ∈ rs, keyfn r = k) := by
  intro rs
  induction rs with
  | nil => intro acc k; simp
  | cons r t ih =>
    intro acc k
    rw [List.foldl_cons, ih]
    have hacc : k ∈ (addToGroup acc (keyfn r) (qty r)).map Prod.fst ↔
        (k ∈ acc.map Prod.fst ∨ keyfn r = k) := by
      rw [addToGroup_keys]
      by_cases hmem : keyfn r ∈ acc.map Prod.fst
      · rw [if_pos hmem]
        constructor
        · exact Or.inl
        · intro h
          rcases h with h | h
          · exact h
          · exact h ▸ hmem
      · rw [if_neg hmem]
        simp [List.mem_append, eq_comm]
    rw [hacc]
    simp only [List.mem_cons]
    constructor
    · intro h
      rcases h with (h | h) | h
      · exact Or.inl h
      · exact Or.inr ⟨r, Or.inl rfl, h⟩
      · obtain ⟨x, hx, hk⟩ := h
        exact Or.inr ⟨x, Or.inr hx, hk⟩
    · intro h
      rcases h with h | ⟨x, hx | hx, hk⟩
      · exact Or.inl (Or.inl h)
      · exact Or.inl (Or.inr (hx ▸ hk))
      · exact Or.inr ⟨x, hx, hk⟩

/-- The groupby fold keeps the key list duplicate-free. -/
theorem groupSum_keys_nodup {ρ κ : Type} [DecidableEq κ] (keyfn : ρ → κ)
    (qty : ρ → ℚ) : ∀ (rs : List ρ) (acc : List (κ × ℚ)),
    (acc.map Prod.fst).Nodup →
    ((rs.foldl (fun a r => addToGroup a (keyfn r) (qty r)) acc).map Prod.fst).Nodup := by
  intro rs
  induction rs with
  | nil => intro acc h; exact h
  | cons r t ih =>
    intro acc h
    rw [List.foldl_cons]
    apply ih
    rw [addToGroup_keys]
    by_cases hmem : keyfn r ∈ acc.map Prod.fst
    · rwa [if_pos hmem]
    · rw [if_neg hmem]
      exact ((List.perm_append_singleton _ _).nodup_iff).mpr
        (List.nodup_cons.mpr ⟨hmem, h⟩)

/-- On a duplicate-free association list, `getQ` reads each entry back. -/
theorem getQ_of_mem {κ : Type} [DecidableEq κ] :
    ∀ (l : List (κ × ℚ)), (l.map Prod.fst).Nodup →
    ∀ e ∈ l, getQ l e.1 = e.2 := by
  intro l
  induction l with
  | nil => intro _ e he; simp at he
  | cons x rest ih =>
    intro hnd e he
    rw [List.map_cons, List.nodup_cons] at hnd
    rcases List.mem_cons.mp he with h | h
    · subst h
      simp [getQ]
    · have hne : ¬(x.1 = e.1) := by
        intro hx
        exact hnd.1 (hx ▸ List.mem_map_of_mem Prod.fst h)
      simp only [getQ, if_neg hne]
      exact ih hnd.2 e h

/-- C8 amended: for every record set, interval and grouping configuration,
`aggregate_by_period` assigns to each produced bucket — keyed by the
grouped dimension values and the period, where weekly periods are the
pandas `W-MON` buckets running Tuesday through Monday — a quantity equal
to the sum of the raw quantities of exactly the records whose key is that
bucket; every record's bucket appears, and no bucket appears twice. -/
theorem C8_aggregate_period_sums (records : List RawRecord) (interval : String)
    (cfg : Config) :
    (∀ e ∈ aggregate_by_period records interval cfg,
      e.2 = sumFor (aggKey cfg interval) (·.quantity) records e.1) ∧
    (∀ rec ∈ records,
      aggKey cfg interval rec ∈ (aggregate_by_period records interval cfg).map Prod.fst) ∧
    ((aggregate_by_period records interval cfg).map Prod.fst).Nodup := by
  have hnd : ((aggregate_by_period records interval cfg).map Prod.fst).Nodup := by
    unfold aggregate_by_period groupSum
    exact groupSum_keys_nodup _ _ records [] (by simp)
  refine ⟨?_, ?_, hnd⟩
  · intro e he
    have h1 : getQ (aggregate_by_period records interval cfg) e.1 = e.2 :=
      getQ_of_mem _ hnd e he
    have h2 : getQ (aggregate_by_period records interval cfg) e.1 =
        getQ [] e.1 + sumFor (aggKey cfg interval) (·.quantity) records e.1 := by
      unfold aggregate_by_period groupSum
      exact getQ_groupSum_aux _ _ records [] e.1
    rw [h1] at h2
    simpa [getQ] using h2
  · intro rec hrec
    unfold aggregate_by_period groupSum
    exact (groupSum_keys_mem _ _ records [] _).mpr (Or.inr ⟨rec, hrec, rfl⟩)

/-- A single-series config (no multi-select, no grouping dimensions). -/
def cfgSingle : Config :=
  ⟨"product", [], [], [], [], "linear_regression", "week", 12, 6, false⟩

/-- A record dated Sunday 2024-01-07. -/
def rSun : RawRecord := ⟨"P", "C", "L", ⟨2024, 1, 7⟩, 1⟩

/-- A record dated Monday 2024-01-08, the very next day. -/
def rMon : RawRecord := ⟨"P", "C", "L", ⟨2024, 1, 8⟩, 2⟩

/-- C8 counterexample: weekly buckets are not "weeks starting Monday".
Sunday 2024-01-07 and Monday 2024-01-08 fall in the same `W-MON` bucket of
`aggregate_by_period` (one aggregated row), while Monday-started weeks
separate them (two rows), so the aggregate the claim describes differs
from the one the code computes. -/
theorem C8_week_convention_counterexample :
    aggregate_by_period [rSun, rMon] "week" cfgSingle ≠
      aggregate_by_period_spec [rSun, rMon] "week" cfgSingle ∧
    periodKey "week" rSun.date = periodKey "week" rMon.date ∧
    specPeriodKey "week" rSun.date ≠ specPeriodKey "week" rMon.date := by
  refine ⟨?_, by decide, by decide⟩
  intro heq
  have h1 : (aggregate_by_period [rSun, rMon] "week" cfgSingle).length = 1 := by
    decide
  have h2 : (aggregate_by_period_spec [rSun, rMon] "week" cfgSingle).length = 2 := by
    decide
  rw [heq] at h1
  omega

/-! ## Ensemble lemmas (C4) -/

/-- The mean of a three-element list. -/
theorem qMean_three (a b c : ℚ) : qMean [a, b, c] = (a + b + c) / 3 := by
  simp [qMean]
  ring

/-- An Except-valued `mapM` over a list on which the function always
succeeds returns the pointwise results. -/
theorem mapM_ok_of_forall {α β : Type} (f : α → Except String β) :
    ∀ l : List α, (∀ x ∈ l, ∃ b, f x = .ok b) →
    ∃ out : List β, l.mapM f = .ok out ∧ out.length = l.length ∧
      ∀ (i : ℕ) (a : α) (b : β), l[i]? = some a → f a = .ok b →
        out[i]? = some b := by
  intro l
  induction l with
  | nil =>
    intro _
    refine ⟨[], rfl, rfl, ?_⟩
    intro i a b hi
    simp at hi
  | cons x t ih =>
    intro h
    obtain ⟨b0, hb0⟩ := h x (List.mem_cons_self x t)
    obtain ⟨out, hout, hlen, hpt⟩ := ih (fun y hy => h y (List.mem_cons_of_mem x hy))
    refine ⟨b0 :: out, ?_, by simp [hlen], ?_⟩
    · simp only [List.mapM_cons, hb0, hout]
      rfl
    · intro i a b hi hf
      cases i with
      | zero =>
        simp only [List.getElem?_cons_zero, Option.some_inj] at hi
        subst hi
        have hbb : Except.ok (ε := String) b0 = Except.ok b := hb0.symm.trans hf
        injection hbb with hbb2
        rw [← hbb2]
        simp
      | succ n =>
        simp only [List.getElem?_cons_succ] at hi ⊢
        exact hpt n a b hi hf

/-- `ensembleQuantities` on a full top-3 with point `i` present in all
three forecasts. -/
theorem ensembleQuantities_eval (r0 r1 r2 : AlgorithmResult) (i : ℕ)
    (p0 p1 p2 : DataPoint)
    (h0 : r0.forecastData[i]? = some p0)
    (h1 : r1.forecastData[i]? = some p1)
    (h2 : r2.forecastData[i]? = some p2) :
    ensembleQuantities [r0, r1, r2] i =
      .ok [p0.quantity, p1.quantity, p2.quantity] := by
  have hne0 : r0.forecastData ≠ [] := by
    intro h; rw [h] at h0; simp at h0
  have hne1 : r1.forecastData ≠ [] := by
    intro h; rw [h] at h1; simp at h1
  have hne2 : r2.forecastData ≠ [] := by
    intro h; rw [h] at h2; simp at h2
  unfold ensembleQuantities
  rw [List.filter_cons_of_pos (by simpa using hne0),
    List.filter_cons_of_pos (by simpa using hne1),
    List.filter_cons_of_pos (by simpa using hne2), List.filter_nil]
  simp only [List.mapM_cons, List.mapM_nil, h0, h1, h2]
  rfl

/-- Bind of a success in `Except` applies the continuation. -/
theorem except_bind_ok {α β : Type} (a : α) (f : α → Except String β) :
    (Except.ok a >>= f) = f a := rfl

/-- `ensemblePoint` on a full top-3 with point `i` present everywhere. -/
theorem ensemblePoint_eval (r0 r1 r2 : AlgorithmResult) (i : ℕ)
    (p0 p1 p2 : DataPoint)
    (h0 : r0.forecastData[i]? = some p0)
    (h1 : r1.forecastData[i]? = some p1)
    (h2 : r2.forecastData[i]? = some p2) :
    ensemblePoint [r0, r1, r2] r0 i =
      .ok ⟨p0.date, (p0.quantity + p1.quantity + p2.quantity) / 3, p0.period⟩ := by
  unfold ensemblePoint
  rw [ensembleQuantities_eval r0 r1 r2 i p0 p1 p2 h0 h1 h2, except_bind_ok]
  simp [h0, qMean_three]
  rfl

/-- C4: when the top-3 list of a best-fit sweep has three members whose
forecast vectors share one length, `ensembleStep` appends an ensemble
result whose forecast point `i` is the arithmetic mean of the three
highest-accuracy results' point `i`, whose accuracy/mae/rmse are the means
of theirs, and whose historic data, trend and date/period labels come from
the first of the three; the three are highest-accuracy: they dominate, in
order, every remaining result. -/
theorem C4_ensemble_top3_average (results : List AlgorithmResult)
    (r0 r1 r2 : AlgorithmResult)
    (htop : topAlgorithms results = [r0, r1, r2])
    (hl1 : r1.forecastData.length = r0.forecastData.length)
    (hl2 : r2.forecastData.length = r0.forecastData.length) :
    ∃ e, ensembleStep results = .ok (results ++ [e]) ∧
      e.algorithm = "Ensemble (Top 3 Avg)" ∧
      e.accuracy = (r0.accuracy + r1.accuracy + r2.accuracy) / 3 ∧
      e.mae = (r0.mae + r1.mae + r2.mae) / 3 ∧
      e.rmse = (r0.rmse + r1.rmse + r2.rmse) / 3 ∧
      e.historicData = r0.historicData ∧
      e.trend = r0.trend ∧
      e.forecastData.length = r0.forecastData.length ∧
      (∀ (i : ℕ) (p0 p1 p2 : DataPoint),
        r0.forecastData[i]? = some p0 → r1.forecastData[i]? = some p1 →
        r2.forecastData[i]? = some p2 →
        e.forecastData[i]? =
          some ⟨p0.date, (p0.quantity + p1.quantity + p2.quantity) / 3, p0.period⟩) ∧
      r1.accuracy ≤ r0.accuracy ∧ r2.accuracy ≤ r1.accuracy ∧
      ∃ rest, results.Perm ([r0, r1, r2] ++ rest) ∧
        ∀ x ∈ rest, x.accuracy ≤ r2.accuracy := by
  have hpt_all : ∀ i ∈ List.range r0.forecastData.length, ∃ b,
      ensemblePoint [r0, r1, r2] r0 i = .ok b := by
    intro i hi
    rw [List.mem_range] at hi
    have h1i : i < r1.forecastData.length := by rw [hl1]; exact hi
    have h2i : i < r2.forecastData.length := by rw [hl2]; exact hi
    exact ⟨_, ensemblePoint_eval r0 r1 r2 i _ _ _
      (List.getElem?_eq_getElem hi) (List.getElem?_eq_getElem h1i)
      (List.getElem?_eq_getElem h2i)⟩
  obtain ⟨out, hmapM, hlenout, hptw⟩ := mapM_ok_of_forall
    (ensemblePoint [r0, r1, r2] r0) (List.range r0.forecastData.length) hpt_all
  refine ⟨⟨"Ensemble (Top 3 Avg)",
      qMean ([r0, r1, r2].map (·.accuracy)),
      qMean ([r0, r1, r2].map (·.mae)),
      qMean ([r0, r1, r2].map (·.rmse)),
      r0.historicData, out, r0.trend⟩, ?_, rfl, ?_, ?_, ?_, rfl, rfl, ?_, ?_, ?_⟩
  · simp only [ensembleStep, htop, List.headD_cons]
    rw [if_pos (by norm_num)]
    rw [hmapM, except_bind_ok]
    rfl
  · exact qMean_three r0.accuracy r1.accuracy r2.accuracy
  · exact qMean_three r0.mae r1.mae r2.mae
  · exact qMean_three r0.rmse r1.rmse r2.rmse
  · simp [hlenout]
  · intro i p0 p1 p2 h0 h1 h2
    have hi : i < r0.forecastData.length := by
      by_contra hcon
      rw [List.getElem?_eq_none (by omega)] at h0
      simp at h0
    exact hptw i i _ (List.getElem?_range hi)
      (ensemblePoint_eval r0 r1 r2 i p0 p1 p2 h0 h1 h2)
  · have htop2 : (List.insertionSort accGE results).take 3 = [r0, r1, r2] := htop
    have hsplit : List.insertionSort accGE results =
        [r0, r1, r2] ++ (List.insertionSort accGE results).drop 3 := by
      conv_lhs => rw [← List.take_append_drop 3 (List.insertionSort accGE results)]
      rw [htop2]
    have hpw : List.Pairwise accGE
        ([r0, r1, r2] ++ (List.insertionSort accGE results).drop 3) := by
      have hs := List.sorted_insertionSort accGE results
      rw [hsplit] at hs
      exact hs
    obtain ⟨hp123, _, hcross⟩ := List.pairwise_append.mp hpw
    obtain ⟨h0x, hp23⟩ := List.pairwise_cons.mp hp123
    obtain ⟨h1x, _⟩ := List.pairwise_cons.mp hp23
    refine ⟨h0x r1 (by simp), h1x r2 (by simp), (List.insertionSort accGE results).drop 3,
      ?_, ?_⟩
    · have hperm := List.perm_insertionSort accGE results
      exact (hsplit ▸ hperm.symm : _)
    · intro x hx
      exact hcross r2 (by simp) x hx

/-- A one-point forecast used by the ensemble witness. -/
def dpW (q : ℚ) : DataPoint := ⟨⟨2024, 1, 1⟩, q, "Jan 2024"⟩

/-- Ensemble-witness sweep result with accuracy 90. -/
def arE1 : AlgorithmResult := ⟨"A", 90, 1, 1, [], [dpW 10], "stable"⟩

/-- Ensemble-witness sweep result with accuracy 80. -/
def arE2 : AlgorithmResult := ⟨"B", 80, 2, 2, [], [dpW 20], "stable"⟩

/-- Ensemble-witness sweep result with accuracy 70. -/
def arE3 : AlgorithmResult := ⟨"C", 70, 3, 3, [], [dpW 30], "stable"⟩

/-- Ensemble-witness degraded sweep result with accuracy 10. -/
def arE4 : AlgorithmResult := ⟨"D", 10, 4, 4, [], [], "stable"⟩

/-- Witness for C4 on a concrete four-result sweep. -/
theorem C4_ensemble_top3_average_witness :
    ∃ e, ensembleStep [arE4, arE1, arE2, arE3] = .ok ([arE4, arE1, arE2, arE3] ++ [e]) ∧
      e.algorithm = "Ensemble (Top 3 Avg)" ∧
      e.accuracy = (arE1.accuracy + arE2.accuracy + arE3.accuracy) / 3 ∧
      e.mae = (arE1.mae + arE2.mae + arE3.mae) / 3 ∧
      e.rmse = (arE1.rmse + arE2.rmse + arE3.rmse) / 3 ∧
      e.historicData = arE1.historicData ∧
      e.trend = arE1.trend ∧
      e.forecastData.length = arE1.forecastData.length ∧
      (∀ (i : ℕ) (p0 p1 p2 : DataPoint),
        arE1.forecastData[i]? = some p0 → arE2.forecastData[i]? = some p1 →
        arE3.forecastData[i]? = some p2 →
        e.forecastData[i]? =
          some ⟨p0.date, (p0.quantity + p1.quantity + p2.quantity) / 3, p0.period⟩) ∧
      arE2.accuracy ≤ arE1.accuracy ∧ arE3.accuracy ≤ arE2.accuracy ∧
      ∃ rest, ([arE4, arE1, arE2, arE3] : List AlgorithmResult).Perm
          ([arE1, arE2, arE3] ++ rest) ∧
        ∀ x ∈ rest, x.accuracy ≤ arE3.accuracy :=
  C4_ensemble_top3_average [arE4, arE1, arE2, arE3] arE1 arE2 arE3
    (by decide) (by decide) (by decide)

end Forecasting
